import Mathlib

/-!
Verification of the print-city sports-betting pipeline backend.

This file gives a shallow embedding of the numerical core of the backend
(`app/core/math.py`, `app/services/consensus.py`, `app/services/picks.py`,
`app/services/clv.py`, `app/services/ingest.py`, `app/services/market_unlock.py`,
`app/intelligence/pqs.py`, `app/intelligence/priors.py`, `app/config.py`)
and proves, or refutes, the quantified properties stated in the design
specification.

Modelling conventions:
* Python `float` arithmetic is embedded as exact rational arithmetic (`ℚ`),
  except where the source takes a square root (`statistics.pstdev`), which is
  embedded in `ℝ`.
* Python exceptions (`ValueError`, `AttributeError`, `ZeroDivisionError`) are
  embedded as `Except String`.
* Timestamps are embedded as integers (`ℤ`), bookmaker names and sides as
  `String`.
* `round(x)` / `Decimal.quantize` use Python's banker's rounding
  (round-half-to-even), embedded by `pyRound`.
-/

namespace PrintCity

instance {ε α : Type} [DecidableEq ε] [DecidableEq α] : DecidableEq (Except ε α) :=
  fun a b =>
    match a, b with
    | .ok x, .ok y => if h : x = y then .isTrue (by rw [h]) else .isFalse (by simp [h])
    | .error x, .error y => if h : x = y then .isTrue (by rw [h]) else .isFalse (by simp [h])
    | .ok _, .error _ => .isFalse (by simp)
    | .error _, .ok _ => .isFalse (by simp)

/-! ## Math kernel (`app/core/math.py`) -/

/-- `EPS = 1e-9` from `app/core/math.py`. -/
def EPS : ℚ := 1 / 1000000000

/-- Python's built-in `round` to an integer: round half to even. -/
def pyRound (q : ℚ) : ℤ :=
  let f : ℤ := ⌊q⌋
  let frac : ℚ := q - (f : ℚ)
  if frac < 1/2 then f
  else if 1/2 < frac then f + 1
  else if f % 2 = 0 then f else f + 1

/-- `Decimal(str(v)).quantize(Decimal("0.0…01"))` with `dp` decimal places
(round half to even, Python's default `Decimal` rounding). -/
def quantize (dp : ℕ) (q : ℚ) : ℚ :=
  (pyRound (q * (10 : ℚ) ^ dp) : ℚ) / (10 : ℚ) ^ dp

/-- `american_to_decimal` from `app/core/math.py`.  (`_ensure_finite` is
trivially satisfied in `ℚ`.) -/
def americanToDecimal (a : ℚ) : Except String ℚ :=
  if |a| < 100 then .error "american_odds must be <= -100 or >= 100"
  else if 0 < a then .ok (1 + a / 100)
  else .ok (1 + 100 / |a|)

/-- `decimal_to_american` from `app/core/math.py`. -/
def decimalToAmerican (d : ℚ) : Except String ℤ :=
  if d ≤ 1 then .error "decimal_odds must be greater than 1"
  else if 2 ≤ d then .ok (pyRound ((d - 1) * 100))
  else .ok (pyRound (-100 / (d - 1)))

/-- The round trip of spec §8 property 1: `decimal_to_american(american_to_decimal(a))`. -/
def roundtripAmerican (a : ℚ) : Except String ℤ :=
  (americanToDecimal a).bind decimalToAmerican

/-- `american_to_implied_prob` from `app/core/math.py`. -/
def americanToImpliedProb (a : ℚ) : Except String ℚ :=
  if |a| < 100 then .error "american_odds must be <= -100 or >= 100"
  else if 0 < a then .ok (100 / (a + 100))
  else .ok (|a| / (|a| + 100))

/-- `_validate_probability` check from `app/core/math.py`. -/
def validProb (p : ℚ) : Prop := 0 ≤ p ∧ p ≤ 1

instance (p : ℚ) : Decidable (validProb p) := by unfold validProb; infer_instance

/-- `remove_vig` from `app/core/math.py`.  The sequential validation of the
Python source is restructured as guards (the raised messages coincide). -/
def removeVig (ps : List ℚ) : Except String (List ℚ) :=
  if ps.isEmpty then .error "probs must not be empty"
  else if ps.any (fun p => decide (p < 0) || decide (1 < p)) then
    .error "probability must be between 0 and 1 inclusive"
  else if ps.sum ≤ EPS then .error "sum of probabilities must be greater than zero"
  else .ok (ps.map (fun p => p / ps.sum))

/-- `consensus_fair_prob` from `app/core/math.py`.  Python dictionaries keyed
by the shared side set are embedded as lists of probabilities aligned with a
common `sides` list; the "same sides" validation becomes a length check. -/
def consensusFairProb (sides : List String) (booksProbs : List (List ℚ))
    (weights : List ℚ) : Except String (List ℚ) :=
  if booksProbs.isEmpty then .error "books_probs must not be empty"
  else if booksProbs.length ≠ weights.length then
    .error "books_probs and weights lengths must match"
  else if weights.any (fun w => decide (w < 0)) then .error "weights must be non-negative"
  else if weights.sum ≤ EPS then .error "weights must sum to greater than zero"
  else if sides.isEmpty then .error "each books_probs entry must contain at least one side"
  else if booksProbs.any (fun bp => bp.length ≠ sides.length) then
    .error "all books_probs entries must have the same sides"
  else if booksProbs.any (fun bp => bp.any (fun p => decide (p < 0) || decide (1 < p))) then
    .error "probability must be between 0 and 1 inclusive"
  else
    let totalWeight := weights.sum
    let weighted := (List.range sides.length).map
      (fun i => ((booksProbs.zip weights).map (fun bw => bw.1.getD i 0 * bw.2)).sum)
    removeVig (weighted.map (fun x => x / totalWeight))

/-- `ev_percent` from `app/core/math.py`. -/
def evPercent (fairProb bestDecimalOdds : ℚ) : Except String ℚ :=
  if ¬ validProb fairProb then .error "fair_prob must be between 0 and 1 inclusive"
  else if bestDecimalOdds ≤ 1 then .error "best_decimal_odds must be greater than 1"
  else .ok (fairProb * bestDecimalOdds - 1)

/-- `kelly_fraction` from `app/core/math.py`. -/
def kellyFraction (fairProb bestDecimalOdds kellyMultiplier maxCap : ℚ) :
    Except String ℚ :=
  if ¬ validProb fairProb then .error "fair_prob must be between 0 and 1 inclusive"
  else if bestDecimalOdds ≤ 1 then .error "best_decimal_odds must be greater than 1"
  else if kellyMultiplier < 0 then .error "kelly_multiplier must be non-negative"
  else if maxCap < 0 then .error "max_cap must be non-negative"
  else
    let b := bestDecimalOdds - 1
    let q := 1 - fairProb
    let fullKelly := (b * fairProb - q) / b
    if fullKelly ≤ 0 then .ok 0
    else .ok (min maxCap (kellyMultiplier * fullKelly))

/-- `market_clv` from `app/core/math.py`. -/
def marketClvFn (closingConsensusProb pickTimeConsensusProb : ℚ) : Except String ℚ :=
  if ¬ validProb closingConsensusProb then
    .error "closing_consensus_prob must be between 0 and 1 inclusive"
  else if ¬ validProb pickTimeConsensusProb then
    .error "pick_time_consensus_prob must be between 0 and 1 inclusive"
  else .ok (closingConsensusProb - pickTimeConsensusProb)

/-- `book_clv` from `app/core/math.py`. -/
def bookClvFn (closingBookImpliedProb pickTimeBookImpliedProb : ℚ) : Except String ℚ :=
  if ¬ validProb closingBookImpliedProb then
    .error "closing_book_implied_prob must be between 0 and 1 inclusive"
  else if ¬ validProb pickTimeBookImpliedProb then
    .error "pick_time_book_implied_prob must be between 0 and 1 inclusive"
  else .ok (closingBookImpliedProb - pickTimeBookImpliedProb)

/-! ## Configuration (`app/config.py`) -/

/-- The seven adaptive-override attributes read by `app/intelligence/pqs.py`
(`ncaab_default_max_picks`, `max_price_dispersion_hard_ceiling`,
`max_price_dispersion_book_count_8`, `max_price_dispersion_sharp_ev`,
`min_minutes_to_start_relaxed`, `min_minutes_to_start_relaxed_min_books`,
`min_minutes_to_start_relaxed_max_dispersion`).  The frozen dataclass
`Settings` in `app/config.py` declares none of them, so reading any of them
on a `Settings` instance raises `AttributeError`.  We embed attribute access
on this group of attributes through an `Option`: `none` models a `Settings`
object on which the attributes are absent (which is what `get_settings`
always constructs), and reading then raises. -/
structure AdaptiveOverrides where
  ncaab_default_max_picks : ℤ
  max_price_dispersion_hard_ceiling : ℚ
  max_price_dispersion_book_count_8 : ℚ
  max_price_dispersion_sharp_ev : ℚ
  min_minutes_to_start_relaxed : ℤ
  min_minutes_to_start_relaxed_min_books : ℤ
  min_minutes_to_start_relaxed_max_dispersion : ℚ
deriving DecidableEq

/-- The fields of the frozen dataclass `Settings` in `app/config.py` that the
numerical core reads (string/scheduler plumbing fields are omitted), plus
`adaptiveOverrides` modelling the attributes that `app/intelligence/pqs.py`
reads but `app/config.py` never defines. -/
structure Settings where
  sharp_books : List String
  sharp_weight : ℚ
  standard_weight : ℚ
  consensus_min_books : ℤ
  consensus_eps : ℚ
  pick_min_ev : ℚ
  pick_min_books : ℤ
  bankroll_paper : ℚ
  kelly_multiplier : ℚ
  kelly_max_cap : ℚ
  kelly_cap : ℚ
  markets_unlock_clv_min : ℤ
  clv_prior_window : ℤ
  clv_min_n_for_prior : ℤ
  sport_default_min_pqs : ℚ
  sport_default_max_picks : ℤ
  min_books : ℤ
  sharp_book_min : ℤ
  max_price_dispersion : ℚ
  min_agreement : ℚ
  min_minutes_to_start : ℤ
  time_decay_half_life_min : ℤ
  ev_floor : ℚ
  pqs_weight_ev : ℚ
  pqs_weight_agreement : ℚ
  pqs_weight_dispersion : ℚ
  pqs_weight_coverage : ℚ
  pqs_weight_sharp_presence : ℚ
  pqs_weight_clv_prior : ℚ
  pqs_weight_time_to_start : ℚ
  adaptiveOverrides : Option AdaptiveOverrides
deriving DecidableEq

/-- The `Settings` value built by `get_settings` under the default
environment of `app/config.py`.  Whatever the environment, `get_settings`
constructs a dataclass without the seven adaptive-override attributes, so
`adaptiveOverrides := none`. -/
def defaultSettings : Settings where
  sharp_books := ["pinnacle", "circa", "betonlineag", "bovada"]
  sharp_weight := 2
  standard_weight := 1
  consensus_min_books := 5
  consensus_eps := 1 / 1000000000
  pick_min_ev := 15 / 1000
  pick_min_books := 5
  bankroll_paper := 10000
  kelly_multiplier := 1 / 4
  kelly_max_cap := 5 / 100
  kelly_cap := 1 / 100
  markets_unlock_clv_min := 100
  clv_prior_window := 200
  clv_min_n_for_prior := 30
  sport_default_min_pqs := 65 / 100
  sport_default_max_picks := 3
  min_books := 6
  sharp_book_min := 1
  max_price_dispersion := 8 / 100
  min_agreement := 60 / 100
  min_minutes_to_start := 15
  time_decay_half_life_min := 240
  ev_floor := 0
  pqs_weight_ev := 30 / 100
  pqs_weight_agreement := 20 / 100
  pqs_weight_dispersion := 15 / 100
  pqs_weight_coverage := 10 / 100
  pqs_weight_sharp_presence := 10 / 100
  pqs_weight_clv_prior := 10 / 100
  pqs_weight_time_to_start := 5 / 100
  adaptiveOverrides := none

/-! ## String helpers -/

/-- Python `str.lower()` on one ASCII character (market keys and bookmaker
keys in this system are ASCII). -/
def pyLowerChar (c : Char) : Char :=
  if 'A' ≤ c ∧ c ≤ 'Z' then Char.ofNat (c.toNat + 32) else c

/-- Python `str.lower()`. -/
def pyLower (s : String) : String := ⟨s.data.map pyLowerChar⟩

/-- Python `str.strip()`: drop leading and trailing whitespace. -/
def pyStrip (s : String) : String :=
  ⟨((s.data.dropWhile Char.isWhitespace).reverse.dropWhile Char.isWhitespace).reverse⟩

/-! ## Market unlock gate (`app/services/market_unlock.py`) -/

/-- The structured refusal dictionary built by `enforce_market_allowed`. -/
structure MarketLockReason where
  code : String
  requested_market : String
  clv_computed_count : ℕ
  threshold : ℤ
  allowed_markets : List String
deriving DecidableEq

/-- `allowed_markets` from `app/services/market_unlock.py`; `clvCount` is the
result of `get_clv_computed_count` (the number of `Pick` rows with
`clv_computed_at` set). -/
def allowedMarkets (clvCount : ℕ) (s : Settings) : List String :=
  if (clvCount : ℤ) < s.markets_unlock_clv_min then ["h2h"]
  else ["h2h", "spreads", "totals"]

/-- `enforce_market_allowed` from `app/services/market_unlock.py`. -/
def enforceMarketAllowed (clvCount : ℕ) (s : Settings) (requestedMarket : String) :
    Bool × Option MarketLockReason :=
  let requested := pyLower (pyStrip requestedMarket)
  let allowed := allowedMarkets clvCount s
  if requested ∈ allowed then (true, none)
  else
    (false, some
      { code := "market_locked_until_clv_100"
        requested_market := requested
        clv_computed_count := clvCount
        threshold := s.markets_unlock_clv_min
        allowed_markets := allowed })

/-! ## Priors (`app/intelligence/priors.py`) -/

/-- `_bps` from `app/intelligence/priors.py`. -/
def bps (v : ℚ) : ℚ := v * 10000

/-- `statistics.mean` on rationals (division by zero yields `0` in `ℚ`;
the source never calls `mean` on an empty list). -/
def meanQ (l : List ℚ) : ℚ := l.sum / l.length

/-- `statistics.median`: sort, take the middle element (odd length) or the
average of the two middle elements (even length). -/
def medianQ (l : List ℚ) : ℚ :=
  let s := List.insertionSort (· ≤ ·) l
  let n := s.length
  if n % 2 = 1 then s.getD (n / 2) 0
  else (s.getD (n / 2 - 1) 0 + s.getD (n / 2) 0) / 2

/-- The population variance underlying `statistics.pstdev`. -/
def varianceQ (l : List ℚ) : ℚ := (l.map (fun x => (x - meanQ l) ^ 2)).sum / l.length

/-- `statistics.pstdev`: the square root of the population variance.  The
square root forces this fragment of the embedding into `ℝ`. -/
noncomputable def pstdevR (l : List ℚ) : ℝ := Real.sqrt ((varianceQ l : ℚ) : ℝ)

/-- The `vol`/`sharpe` computation in `recompute_clv_sport_stats`
(`app/intelligence/priors.py` lines 53-54):
`vol = pstdev(market_vals) if n > 1 else 0.0` and
`sharpe = (mean(market_vals) / vol) if vol > 0 else 0.0`. -/
noncomputable def sharpeLikeR (l : List ℚ) : ℝ :=
  let vol : ℝ := if 1 < l.length then pstdevR l else 0
  if 0 < vol then ((meanQ l : ℚ) : ℝ) / vol else 0

/-- Python's `round` on a real, half to even (mirrors `pyRound`). -/
noncomputable def pyRoundR (x : ℝ) : ℤ :=
  let f : ℤ := ⌊x⌋
  let frac : ℝ := x - (f : ℝ)
  if frac < 1/2 then f
  else if 1/2 < frac then f + 1
  else if f % 2 = 0 then f else f + 1

/-- Python's `round(x, dp)` on a real. -/
noncomputable def roundR (dp : ℕ) (x : ℝ) : ℝ :=
  (pyRoundR (x * (10 : ℝ) ^ dp) : ℝ) / (10 : ℝ) ^ dp

/-- One `ClvSportStat` row as published by `recompute_clv_sport_stats`
(identity and window columns omitted; they do not enter claim C8). -/
structure ClvSportStat where
  n : ℕ
  mean_market_clv_bps : ℚ
  median_market_clv_bps : ℚ
  pct_positive_market_clv : ℚ
  mean_same_book_clv_bps : Option ℚ
  sharpe_like : ℝ
  is_weak : ℤ

/-- The per-(sport_key, market_key) group body of `recompute_clv_sport_stats`
(`app/intelligence/priors.py` lines 40-72): `marketClvs`/`bookClvs` are the
windowed non-null `market_clv`/`book_clv` values of the group's picks. -/
noncomputable def clvStatRow (marketClvs bookClvs : List ℚ) (minN : ℤ) : ClvSportStat :=
  let marketVals := marketClvs.map bps
  let bookVals := bookClvs.map bps
  let n := marketVals.length
  let weak := (n : ℤ) < minN
  let meanMarket : ℚ := if n = 0 then 0 else if weak then 0 else meanQ marketVals
  let medianMarket : ℚ := if n = 0 then 0 else if weak then 0 else medianQ marketVals
  let pctPositive : ℚ :=
    if n = 0 then 1/2
    else if weak then 1/2
    else ((marketVals.countP (fun v => decide (0 < v)) : ℚ)) / (n : ℚ)
  let sharpe : ℝ := if n = 0 then 0 else sharpeLikeR marketVals
  { n := n
    mean_market_clv_bps := quantize 4 meanMarket
    median_market_clv_bps := quantize 4 medianMarket
    pct_positive_market_clv := quantize 6 pctPositive
    mean_same_book_clv_bps := if bookVals.isEmpty then none else some (quantize 4 (meanQ bookVals))
    sharpe_like := roundR 6 sharpe
    is_weak := if weak then 1 else 0 }

/-! ## Ingest canonical group representation (`app/services/ingest.py`) -/

/-- One entry of the `side_prices` list handed to
`build_normalized_group_representation`: a Python dict with the keys `side`,
`american`, `decimal` plus any further (derived) keys such as
`implied_prob`, `fair_prob`, `captured_at` or `point`, which are embedded
as an opaque `extra` association list. -/
structure RawSidePrice where
  side : String
  american : Option ℤ
  decimal : Option ℚ
  extra : List (String × String)
deriving DecidableEq

/-- The canonicalised side entry `{side, american, decimal}` kept by
`build_normalized_group_representation`. -/
structure SideEntry where
  side : String
  american : Option ℤ
  decimal : Option ℚ
deriving DecidableEq

/-- Projection of a raw side-price dict to its canonical entry. -/
def sideProj (sp : RawSidePrice) : SideEntry :=
  { side := sp.side, american := sp.american, decimal := sp.decimal }

/-- The ordering `key=lambda x: x["side"]` used to sort the canonical side
entries. -/
def sideLE (a b : SideEntry) : Prop := a.side ≤ b.side

instance : DecidableRel sideLE := fun a b => inferInstanceAs (Decidable (a.side ≤ b.side))

instance : IsTotal SideEntry sideLE := ⟨fun a b => le_total a.side b.side⟩

instance : IsTrans SideEntry sideLE := ⟨fun _ _ _ h1 h2 => le_trans h1 h2⟩

/-- The canonical group representation built by
`build_normalized_group_representation`
(`app/services/ingest.py` lines 51-77).  The group hash is the SHA-256 of
the sorted-keys compact JSON serialisation of this structure; we model the
hash by the canonical structure itself (two groups receive the same hash iff
they have the same canonical representation, faithful up to SHA-256 collisions
and injectivity of the deterministic JSON serialisation). -/
structure NormalizedGroup where
  event_id : String
  market_key : String
  bookmaker : String
  point : Option ℚ
  sides : List SideEntry
deriving DecidableEq

/-- `build_normalized_group_representation` from `app/services/ingest.py`:
keep only `side`, `american`, `decimal` of each side-price entry and sort by
`side`. -/
def buildNormalizedGroupRepresentation (event_id market_key bookmaker : String)
    (point : Option ℚ) (side_prices : List RawSidePrice) : NormalizedGroup :=
  { event_id := event_id
    market_key := market_key
    bookmaker := bookmaker
    point := point
    sides := List.insertionSort sideLE (side_prices.map sideProj) }

/-! ## PQS scorer (`app/intelligence/pqs.py`) -/

/-- `PickFeatures` from `app/intelligence/features.py`. -/
structure PickFeatures where
  ev : ℚ
  kelly_fraction : ℚ
  book_count : ℤ
  sharp_book_count : ℤ
  agreement_strength : ℚ
  price_dispersion : ℚ
  best_vs_consensus_edge : ℚ
  time_to_start_minutes : ℚ
  market_liquidity_proxy : ℚ
deriving DecidableEq

/-- `PickScoreDecision` from `app/domain/enums.py`. -/
inductive PickScoreDecision where
  | KEEP
  | DROP
  | WARN
deriving DecidableEq

/-- `PQSResult` from `app/intelligence/pqs.py` (the components dict is an
association list). -/
structure PQSResult where
  pqs : ℚ
  decision : PickScoreDecision
  drop_reason : Option String
  components : List (String × ℚ)
deriving DecidableEq

/-- `_clamp` from `app/intelligence/pqs.py` with the default bounds. -/
def clamp (v : ℚ) : ℚ := max 0 (min 1 v)

/-- Attribute read `settings.ncaab_default_max_picks`; raises
`AttributeError` on the `Settings` objects built by `app/config.py`. -/
def Settings.attrNcaabDefaultMaxPicks (s : Settings) : Except String ℤ :=
  match s.adaptiveOverrides with
  | some o => .ok o.ncaab_default_max_picks
  | none => .error "AttributeError: ncaab_default_max_picks"

/-- Attribute read `settings.max_price_dispersion_hard_ceiling`. -/
def Settings.attrMaxPriceDispersionHardCeiling (s : Settings) : Except String ℚ :=
  match s.adaptiveOverrides with
  | some o => .ok o.max_price_dispersion_hard_ceiling
  | none => .error "AttributeError: max_price_dispersion_hard_ceiling"

/-- Attribute read `settings.max_price_dispersion_book_count_8`. -/
def Settings.attrMaxPriceDispersionBookCount8 (s : Settings) : Except String ℚ :=
  match s.adaptiveOverrides with
  | some o => .ok o.max_price_dispersion_book_count_8
  | none => .error "AttributeError: max_price_dispersion_book_count_8"

/-- Attribute read `settings.max_price_dispersion_sharp_ev`. -/
def Settings.attrMaxPriceDispersionSharpEv (s : Settings) : Except String ℚ :=
  match s.adaptiveOverrides with
  | some o => .ok o.max_price_dispersion_sharp_ev
  | none => .error "AttributeError: max_price_dispersion_sharp_ev"

/-- Attribute read `settings.min_minutes_to_start_relaxed`. -/
def Settings.attrMinMinutesToStartRelaxed (s : Settings) : Except String ℤ :=
  match s.adaptiveOverrides with
  | some o => .ok o.min_minutes_to_start_relaxed
  | none => .error "AttributeError: min_minutes_to_start_relaxed"

/-- Attribute read `settings.min_minutes_to_start_relaxed_min_books`. -/
def Settings.attrMinMinutesToStartRelaxedMinBooks (s : Settings) : Except String ℤ :=
  match s.adaptiveOverrides with
  | some o => .ok o.min_minutes_to_start_relaxed_min_books
  | none => .error "AttributeError: min_minutes_to_start_relaxed_min_books"

/-- Attribute read `settings.min_minutes_to_start_relaxed_max_dispersion`. -/
def Settings.attrMinMinutesToStartRelaxedMaxDispersion (s : Settings) : Except String ℚ :=
  match s.adaptiveOverrides with
  | some o => .ok o.min_minutes_to_start_relaxed_max_dispersion
  | none => .error "AttributeError: min_minutes_to_start_relaxed_max_dispersion"

/-- `adaptive_thresholds` from `app/intelligence/pqs.py`. -/
def adaptiveThresholds (s : Settings) (prior : Option ClvSportStat)
    (sportKey : Option String) : Except String (ℚ × ℤ) := do
  let minPqs := s.sport_default_min_pqs
  let maxPicks ←
    if sportKey = some "basketball_ncaab" then s.attrNcaabDefaultMaxPicks
    else pure s.sport_default_max_picks
  match prior with
  | none => return (minPqs, maxPicks)
  | some pr =>
    let pct := pr.pct_positive_market_clv
    if pct < 45/100 then
      return (quantize 6 (min (9/10) (minPqs + 5/100)), max 1 (maxPicks - 1))
    else if 6/10 < pct ∧ pr.is_weak = 0 then
      return (quantize 6 (max (55/100) (minPqs - 2/100)), maxPicks)
    else
      return (quantize 6 minPqs, maxPicks)

/-- `adaptive_max_price_dispersion` from `app/intelligence/pqs.py`. -/
def adaptiveMaxPriceDispersion (s : Settings) (f : PickFeatures) : Except String ℚ := do
  let base := s.max_price_dispersion
  let afterBooks ←
    if (8 : ℤ) ≤ f.book_count then do
      let v ← s.attrMaxPriceDispersionBookCount8
      pure (max base v)
    else pure base
  if (2 : ℤ) ≤ f.sharp_book_count ∧ (5/100 : ℚ) ≤ f.ev then do
    let v ← s.attrMaxPriceDispersionSharpEv
    pure (max afterBooks v)
  else pure afterBooks

/-- `adaptive_min_minutes_to_start` from `app/intelligence/pqs.py`.  The
Python `and` short-circuits, so the relaxed-max-dispersion attribute is only
read when the book-count condition holds. -/
def adaptiveMinMinutesToStart (s : Settings) (f : PickFeatures) : Except String ℤ := do
  let relaxedMinBooks ← s.attrMinMinutesToStartRelaxedMinBooks
  if relaxedMinBooks ≤ f.book_count then do
    let relaxedMaxDispersion ← s.attrMinMinutesToStartRelaxedMaxDispersion
    if f.price_dispersion ≤ relaxedMaxDispersion then s.attrMinMinutesToStartRelaxed
    else pure s.min_minutes_to_start
  else pure s.min_minutes_to_start

/-- `score_pick` from `app/intelligence/pqs.py`. -/
def scorePick (f : PickFeatures) (s : Settings) (prior : Option ClvSportStat)
    (sportKey : Option String) : Except String PQSResult := do
  if f.book_count < s.min_books then
    return ⟨0, .DROP, some "min_books", []⟩
  if f.sharp_book_count < s.sharp_book_min then
    return ⟨0, .DROP, some "sharp_book_min", []⟩
  if f.time_to_start_minutes < 0 then
    return ⟨0, .DROP, some "min_minutes_to_start", []⟩
  let minMinutesToStart ← adaptiveMinMinutesToStart s f
  if f.time_to_start_minutes < (minMinutesToStart : ℚ) then
    return ⟨0, .DROP, some "min_minutes_to_start", []⟩
  let hardCeiling ← s.attrMaxPriceDispersionHardCeiling
  if hardCeiling < f.price_dispersion then
    return ⟨0, .DROP, some "max_price_dispersion", []⟩
  let adaptiveMaxPrice ← adaptiveMaxPriceDispersion s f
  if adaptiveMaxPrice < f.price_dispersion then
    return ⟨0, .DROP, some "max_price_dispersion", []⟩
  if f.agreement_strength < s.min_agreement then
    return ⟨0, .DROP, some "min_agreement", []⟩
  if f.ev < s.ev_floor then
    return ⟨0, .DROP, some "ev_floor", []⟩
  let evScore := clamp (f.ev / (5/100))
  let agreementScore := clamp f.agreement_strength
  let dispersionScore := clamp (1 - f.price_dispersion / max adaptiveMaxPrice (1/1000000000))
  let coverageScore := clamp ((f.book_count : ℚ) / ((max s.min_books 10 : ℤ) : ℚ))
  let sharpScore : ℚ := if s.sharp_book_min ≤ f.sharp_book_count then 1 else 0
  let priorScore : ℚ :=
    match prior with
    | none => 1/2
    | some pr => clamp ((pr.pct_positive_market_clv - 1/2) * 2 + 1/2)
  let timeScore := clamp (f.time_to_start_minutes / ((max s.time_decay_half_life_min 1 : ℤ) : ℚ))
  let pqs :=
    s.pqs_weight_ev * evScore
    + s.pqs_weight_agreement * agreementScore
    + s.pqs_weight_dispersion * dispersionScore
    + s.pqs_weight_coverage * coverageScore
    + s.pqs_weight_sharp_presence * sharpScore
    + s.pqs_weight_clv_prior * priorScore
    + s.pqs_weight_time_to_start * timeScore
  let thresholds ← adaptiveThresholds s prior sportKey
  let components :=
    [("ev_score", quantize 6 evScore),
     ("agreement_score", quantize 6 agreementScore),
     ("dispersion_score", quantize 6 dispersionScore),
     ("coverage_score", quantize 6 coverageScore),
     ("sharp_presence_score", quantize 6 sharpScore),
     ("clv_prior_score", quantize 6 priorScore),
     ("time_score", quantize 6 timeScore),
     ("adaptive_min_pqs", thresholds.1),
     ("adaptive_max_picks", (thresholds.2 : ℚ)),
     ("adaptive_max_price_dispersion", quantize 6 adaptiveMaxPrice),
     ("adaptive_min_minutes_to_start", (minMinutesToStart : ℚ))]
  let decision := if thresholds.1 ≤ pqs then PickScoreDecision.KEEP else PickScoreDecision.DROP
  let dropReason := if decision = PickScoreDecision.KEEP then none else some "below_min_pqs"
  return ⟨quantize 6 (clamp pqs), decision, dropReason, components⟩

/-! ## Consensus builder (`app/services/consensus.py`) -/

/-- `OddsSnapshotRow` from `app/services/consensus.py` (team-name fields are
omitted; they are copied through and do not enter any claim). -/
structure Row where
  event_id : String
  sport_key : String
  commence_time : ℤ
  market_key : String
  bookmaker : String
  side : String
  point : Option ℚ
  captured_at : ℤ
  american : Option ℤ
  decimal : Option ℚ
  fair_prob : ℚ
deriving DecidableEq

/-- `_required_sides` from `app/services/consensus.py`, already in the sorted
order `sorted(required, key=lambda s: s.value)` used by
`build_market_views`; an unknown market key raises (the `MarketKey(...)`
constructor). -/
def requiredSidesE (market_key : String) : Except String (List String) :=
  if market_key = "h2h" ∨ market_key = "spreads" then .ok ["AWAY", "HOME"]
  else if market_key = "totals" then .ok ["OVER", "UNDER"]
  else .error "ValueError: invalid MarketKey"

/-- Sort key of `sorted(view_rows, key=lambda r: (r.bookmaker, r.side.value,
r.captured_at))`. -/
def rowSortKey (r : Row) : Lex (String × Lex (String × ℤ)) :=
  toLex (r.bookmaker, toLex (r.side, r.captured_at))

/-- The row ordering used to sort a view's rows. -/
def rowLE (a b : Row) : Prop := rowSortKey a ≤ rowSortKey b

instance : DecidableRel rowLE :=
  fun a b => inferInstanceAs (Decidable (rowSortKey a ≤ rowSortKey b))

instance : IsTotal Row rowLE := ⟨fun a b => le_total (rowSortKey a) (rowSortKey b)⟩

instance : IsTrans Row rowLE := ⟨fun _ _ _ h1 h2 => le_trans h1 h2⟩

/-- The last row of a view with the given bookmaker and side: Python's
`by_book.setdefault(row.bookmaker, {})[row.side] = row` keeps the last
occurrence. -/
def lastRowFor (rows : List Row) (b s : String) : Option Row :=
  (rows.filter (fun r => r.bookmaker = b ∧ r.side = s)).getLast?

/-- The bookmakers of a view (`by_book` keys, first-occurrence order). -/
def viewBooks (rows : List Row) : List String := (rows.map Row.bookmaker).dedup

/-- `complete_books`: the bookmakers whose side dictionary contains every
required side. -/
def completeBooks (rows : List Row) (required : List String) : List String :=
  (viewBooks rows).filter (fun b => required.all (fun s => (lastRowFor rows b s).isSome))

/-- The fair probability of the (book, side) cell of a view
(`sides[side].fair_prob`; the default is unreachable for complete books). -/
def fairProbFor (rows : List Row) (b s : String) : ℚ :=
  ((lastRowFor rows b s).map Row.fair_prob).getD 0

/-- `MarketView` from `app/services/consensus.py`.  The per-book fair-prob
dictionaries are embedded as lists aligned with `sides` (the sorted required
side set); `book_odds` (used only for feature computation, which is outside
the embedded claims) is omitted. -/
structure MarketView where
  event_id : String
  sport_key : String
  commence_time : ℤ
  market_key : String
  point : Option ℚ
  sides : List String
  rows : List Row
  bookmakerFairProbs : List (String × List ℚ)
  total_books : ℕ
  sharp_books : ℕ
  book_list : List String
deriving DecidableEq

/-- The per-view body of `build_market_views` (`app/services/consensus.py`
lines 188-237): required sides from the first row, last-wins side dictionary
per bookmaker, complete books, sorted fair-prob dictionaries, sorted rows. -/
def mkMarketView (s : Settings) (point : Option ℚ) (viewRows : List Row) :
    Except String MarketView :=
  match viewRows with
  | [] => .error "IndexError: empty view"
  | r0 :: _ => do
    let required ← requiredSidesE r0.market_key
    let sharpSet := s.sharp_books.map pyLower
    let included := List.insertionSort (· ≤ ·) (completeBooks viewRows required)
    let probs := included.map (fun b => (b, required.map (fun side => fairProbFor viewRows b side)))
    return { event_id := r0.event_id
             sport_key := r0.sport_key
             commence_time := r0.commence_time
             market_key := r0.market_key
             point := point
             sides := required
             rows := List.insertionSort rowLE viewRows
             bookmakerFairProbs := probs
             total_books := included.length
             sharp_books := (included.filter (fun b => pyLower b ∈ sharpSet)).length
             book_list := included }

/-- `ConsensusResult` from `app/services/consensus.py`.  `consensus_probs` is
an association list keyed by the market's sorted side set; `best_decimal` and
`best_book` are read through a single map from sides to (price, book). -/
structure ConsensusResult where
  event_id : String
  sport_key : String
  commence_time : ℤ
  market_key : String
  point : Option ℚ
  consensus_probs : Option (List (String × ℚ))
  consensus_reason : Option String
  included_books : ℕ
  sharp_books_included : ℕ
  best : String → Option (ℚ × String)
  captured_at_min : ℤ
  captured_at_max : ℤ

/-- One step of the best-price loop of `compute_consensus_for_view`
(`app/services/consensus.py` lines 268-275): skip null decimals, replace on
strictly greater price. -/
def bestStep (acc : String → Option (ℚ × String)) (r : Row) :
    String → Option (ℚ × String) :=
  match r.decimal with
  | none => acc
  | some d =>
    match acc r.side with
    | none => fun s => if s = r.side then some (d, r.bookmaker) else acc s
    | some md =>
      if md.1 < d then (fun s => if s = r.side then some (d, r.bookmaker) else acc s)
      else acc

/-- The `best_decimal`/`best_book` dictionaries of
`compute_consensus_for_view`, folded over the view's sorted rows. -/
def bestAssoc (rows : List Row) : String → Option (ℚ × String) :=
  rows.foldl bestStep (fun _ => none)

/-- The consensus weights of `compute_consensus_for_view`: `sharp_weight` for
sharp books (lower-cased membership), `standard_weight` otherwise. -/
def consensusWeights (s : Settings) (includedBooks : List String) : List ℚ :=
  includedBooks.map
    (fun b => if pyLower b ∈ s.sharp_books.map pyLower then s.sharp_weight
              else s.standard_weight)

/-- The renormalisation step of `compute_consensus_for_view`: when the drift
`|Σ probs − 1|` exceeds `consensus_eps`, divide every probability by the
total. -/
def renormalize (eps : ℚ) (probs : List ℚ) : List ℚ :=
  if eps < |probs.sum - 1| then probs.map (fun p => p / probs.sum) else probs

/-- The `consensus_probs`/`reason` computation of `compute_consensus_for_view`
(`app/services/consensus.py` lines 253-264), including the final assertion. -/
def consensusProbsPart (s : Settings) (v : MarketView) :
    Except String (Option (List (String × ℚ)) × Option String) :=
  if ((v.bookmakerFairProbs.map Prod.fst).length : ℤ) < s.consensus_min_books then
    pure (none, some "insufficient_books")
  else
    (consensusFairProb v.sides (v.bookmakerFairProbs.map Prod.snd)
        (consensusWeights s (v.bookmakerFairProbs.map Prod.fst))).bind
      (fun probs =>
        if s.consensus_eps < |(renormalize s.consensus_eps probs).sum - 1| then
          Except.error "AssertionError"
        else pure (some (v.sides.zip (renormalize s.consensus_eps probs)), none))

/-- `compute_consensus_for_view` from `app/services/consensus.py`. -/
def computeConsensusForView (s : Settings) (v : MarketView) :
    Except String ConsensusResult := do
  let probsAndReason ← consensusProbsPart s v
  let capturedAtMin ←
    match (v.rows.map Row.captured_at).min? with
    | none => Except.error "ValueError: min of empty sequence"
    | some x => pure x
  let capturedAtMax ←
    match (v.rows.map Row.captured_at).max? with
    | none => Except.error "ValueError: max of empty sequence"
    | some x => pure x
  return { event_id := v.event_id
           sport_key := v.sport_key
           commence_time := v.commence_time
           market_key := v.market_key
           point := v.point
           consensus_probs := probsAndReason.1
           consensus_reason := probsAndReason.2
           included_books := (v.bookmakerFairProbs.map Prod.fst).length
           sharp_books_included :=
             ((v.bookmakerFairProbs.map Prod.fst).filter
               (fun b => pyLower b ∈ s.sharp_books.map pyLower)).length
           best := bestAssoc v.rows
           captured_at_min := capturedAtMin
           captured_at_max := capturedAtMax }

/-- The (event_id, market_key, point) grouping key of `build_market_views`. -/
def viewKey (r : Row) : String × String × Option ℚ :=
  (r.event_id, r.market_key, r.point)

/-- The sort key `(x[0], x[1], x[2] is not None, x[2] if x[2] is not None
else -1)` used on grouping keys by `build_market_views`.  (Plain
`sorted(views.keys())`, as used by the pick generator, raises `TypeError` on
a mixture of `None` and float points and agrees with this order otherwise.) -/
def viewKeySort (k : String × String × Option ℚ) : Lex (String × Lex (String × Lex (Bool × ℚ))) :=
  toLex (k.1, toLex (k.2.1, toLex (k.2.2.isSome, k.2.2.getD (-1))))

/-- The key ordering of `build_market_views`. -/
def viewKeyLE (a b : String × String × Option ℚ) : Prop := viewKeySort a ≤ viewKeySort b

instance : DecidableRel viewKeyLE :=
  fun a b => inferInstanceAs (Decidable (viewKeySort a ≤ viewKeySort b))

instance : IsTotal (String × String × Option ℚ) viewKeyLE :=
  ⟨fun a b => le_total (viewKeySort a) (viewKeySort b)⟩

instance : IsTrans (String × String × Option ℚ) viewKeyLE :=
  ⟨fun _ _ _ h1 h2 => le_trans h1 h2⟩

/-- `build_market_views` from `app/services/consensus.py`: group the rows by
(event_id, market_key, point), iterate the keys in sorted order, and build
one `MarketView` per key. -/
def buildMarketViews (s : Settings) (rows : List Row) :
    Except String (List ((String × String × Option ℚ) × MarketView)) :=
  let keys := List.insertionSort viewKeyLE (rows.map viewKey).dedup
  keys.mapM (fun k => do
    let v ← mkMarketView s k.2.2 (rows.filter (fun r => viewKey r = k))
    pure (k, v))

/-- The side-restricted (bookmaker, decimal) quote list of a row list, in
row order: the quotes the best-price loop of `compute_consensus_for_view`
considers for one side. -/
def sideQuotes (s : String) (rows : List Row) : List (String × ℚ) :=
  rows.filterMap
    (fun r => if r.side = s then r.decimal.map (fun d => (r.bookmaker, d)) else none)

/-- The best-price fold of `compute_consensus_for_view` restricted to one
side's quotes: keep the current entry unless a strictly higher price
appears. -/
def foldBest1 (acc : Option (ℚ × String)) (q : List (String × ℚ)) : Option (ℚ × String) :=
  q.foldl (fun a bd =>
    match a with
    | none => some (bd.2, bd.1)
    | some md => if md.1 < bd.2 then some (bd.2, bd.1) else a) acc

/-- The decimal price a bookmaker quotes for a side in a view (through the
last-wins side dictionary of `build_market_views`). -/
def bookQuote (rows : List Row) (b side : String) : Option ℚ :=
  (lastRowFor rows b side).bind Row.decimal

/-! ## Pick generator (`app/services/picks.py`) -/

/-- The columns of a `Pick` row written by `generate_consensus_picks`
(`app/services/picks.py` lines 128-145).  The CLV columns start out null and
are outside the generator; `PickScore` rows live in a separate table. -/
structure PickRow where
  game_id : ℤ
  market_key : String
  side : String
  point : Option ℚ
  source : String
  consensus_prob : ℚ
  best_decimal : ℚ
  best_book : String
  ev : ℚ
  kelly_fraction : ℚ
  stake : ℚ
  consensus_books : ℕ
  sharp_books : ℕ
  captured_at_min : ℤ
  captured_at_max : ℤ
deriving DecidableEq

/-- One candidate of the generator's inner loop (`app/services/picks.py`
lines 94-99): a (side, probability) pair of a sufficient consensus result
whose best price is present, together with the result and game
identifiers. -/
structure Candidate where
  game_id : ℤ
  market_key : String
  side : String
  point : Option ℚ
  probability : ℚ
  best_decimal : ℚ
  best_book : String
  included_books : ℕ
  sharp_books_included : ℕ
  captured_at_min : ℤ
  captured_at_max : ℤ
deriving DecidableEq

/-- The `exists_conditions` of `generate_consensus_picks` (lines 114-121):
the Pick uniqueness key (game, market_key, side, best_book, captured_at_max,
point-or-null). -/
def pickKeyMatches (p : PickRow) (c : Candidate) : Prop :=
  p.game_id = c.game_id ∧ p.market_key = c.market_key ∧ p.side = c.side ∧
  p.best_book = c.best_book ∧ p.captured_at_max = c.captured_at_max ∧
  p.point = c.point

instance (p : PickRow) (c : Candidate) : Decidable (pickKeyMatches p c) := by
  unfold pickKeyMatches; infer_instance

/-- The existence test `session.execute(select(Pick).where(
and_(*exists_conditions))).first() is not None` against the embedded Pick
table (which, like the flushed session, contains the rows added earlier in
the same run). -/
def keyExistsB (st : List PickRow) (c : Candidate) : Bool :=
  st.any (fun p => decide (pickKeyMatches p c))

/-- The `Pick(...)` built on lines 128-145.  Every numeric column goes
through `_to_decimal(v, places) = Decimal(str(v)).quantize(Decimal(places))`,
which is exact quantisation at the indicated scale (`quantize` here, with
Python's default `ROUND_HALF_EVEN`). -/
def mkPick (s : Settings) (c : Candidate) (ev kelly : ℚ) : PickRow :=
  { game_id := c.game_id
    market_key := c.market_key
    side := c.side
    point := c.point
    source := "CONSENSUS"
    consensus_prob := quantize 8 c.probability
    best_decimal := quantize 5 c.best_decimal
    best_book := c.best_book
    ev := quantize 8 ev
    kelly_fraction := quantize 8 kelly
    stake := quantize 4 (s.bankroll_paper * kelly)
    consensus_books := c.included_books
    sharp_books := c.sharp_books_included
    captured_at_min := c.captured_at_min
    captured_at_max := c.captured_at_max }

/-- The pre-scoring counters of `_base_summary`.  `new_rows` counts the
`session.add(Pick(...))` calls, i.e. the Pick rows added to the table; the
reported `inserted` key additionally intersects with the final PQS keep set,
and the scoring counters (`scored`/`kept`/`dropped`) belong to the scoring
tail, which reads but never writes the Pick table. -/
structure PickRunSummary where
  total_views : ℕ
  candidates : ℕ
  skipped_insufficient_books : ℕ
  skipped_low_ev : ℕ
  skipped_existing : ℕ
  new_rows : ℕ
deriving DecidableEq

/-- The body of the candidate loop of `generate_consensus_picks`
(`app/services/picks.py` lines 99-214) acting on the embedded Pick table:
EV gate, capped Kelly (`kelly = min(kelly_cap, kelly_fraction(...))`),
non-positive-Kelly drop, uniqueness-key existence test, insert.  `scoreE`
abstracts the scoring tail of the loop body (`get_latest_prior`,
`compute_features`, `score_pick` and the `PickScore` bookkeeping, lines
152-214), which never writes the Pick table or these counters; an error
from it is an uncaught exception aborting the run. -/
def processCandidate (scoreE : Candidate → Except String Unit) (s : Settings)
    (st : List PickRow) (sm : PickRunSummary) (c : Candidate) :
    Except String (List PickRow × PickRunSummary) :=
  (evPercent c.probability c.best_decimal).bind (fun ev =>
    if ev < s.pick_min_ev then
      Except.ok (st, { sm with candidates := sm.candidates + 1,
                               skipped_low_ev := sm.skipped_low_ev + 1 })
    else
      (kellyFraction c.probability c.best_decimal s.kelly_multiplier
          s.kelly_max_cap).bind (fun kf =>
        if min s.kelly_cap kf ≤ 0 then
          Except.ok (st, { sm with candidates := sm.candidates + 1 })
        else if keyExistsB st c then
          (scoreE c).bind (fun _ =>
            Except.ok (st, { sm with candidates := sm.candidates + 1,
                                     skipped_existing := sm.skipped_existing + 1 }))
        else
          (scoreE c).bind (fun _ =>
            Except.ok (st ++ [mkPick s c ev (min s.kelly_cap kf)],
              { sm with candidates := sm.candidates + 1,
                        new_rows := sm.new_rows + 1 }))))

/-- The candidate loop folded over the run's candidate list. -/
def runCandidates (scoreE : Candidate → Except String Unit) (s : Settings) :
    List Candidate → List PickRow → PickRunSummary →
    Except String (List PickRow × PickRunSummary)
  | [], st, sm => Except.ok (st, sm)
  | c :: cs, st, sm =>
    (processCandidate scoreE s st sm c).bind
      (fun r => runCandidates scoreE s cs r.1 r.2)

/-- The candidates one consensus result contributes (lines 86-99): none when
`consensus_probs` is null, `included_books < pick_min_books`, or the event
has no `Game` row (`event_to_game_id.get` returns `None`); otherwise one
candidate per consensus side whose best price is present (`best_decimal` and
`best_book` are filled together, modelled by the single `best` map). -/
def candidatesOfResult (s : Settings) (gameIdOf : String → Option ℤ)
    (res : ConsensusResult) : List Candidate :=
  match res.consensus_probs with
  | none => []
  | some probs =>
    if (res.included_books : ℤ) < s.pick_min_books then []
    else
      match gameIdOf res.event_id with
      | none => []
      | some gid =>
        probs.filterMap (fun sp =>
          (res.best sp.1).map (fun db =>
            { game_id := gid
              market_key := res.market_key
              side := sp.1
              point := res.point
              probability := sp.2
              best_decimal := db.1
              best_book := db.2
              included_books := res.included_books
              sharp_books_included := res.sharp_books_included
              captured_at_min := res.captured_at_min
              captured_at_max := res.captured_at_max }))

/-- `generate_consensus_picks` from `app/services/picks.py`, acting on the
latest group rows (the output of `get_latest_group_rows`), the Game lookup
`gameIdOf` (the `event_to_game_id` dictionary) and the current Pick table
`st`.  The `views.get(view_key)` lookup always succeeds (every result comes
from a view), so the remaining skip reasons are exactly the modelled ones;
`sorted(views.keys())` is the order `buildMarketViews` already produces. -/
def generateConsensusPicks (scoreE : Candidate → Except String Unit)
    (s : Settings) (gameIdOf : String → Option ℤ) (rows : List Row)
    (st : List PickRow) : Except String (List PickRow × PickRunSummary) :=
  (buildMarketViews s rows).bind (fun views =>
    (views.mapM (fun kv => computeConsensusForView s kv.2)).bind (fun results =>
      runCandidates scoreE s
        ((results.map (candidatesOfResult s gameIdOf)).flatten) st
        { total_views := results.length
          candidates := 0
          skipped_insufficient_books :=
            (results.filter (fun res =>
              res.consensus_probs.isNone ||
                decide ((res.included_books : ℤ) < s.pick_min_books))).length
          skipped_low_ev := 0
          skipped_existing := 0
          new_rows := 0 }))

/-- The Kelly formula as the specification states it (section 4.1): with
b = d − 1 and f* = (b·p − (1−p))/b, return 0 if f* ≤ 0 and min(cap, mult·f*)
otherwise.  Written from the spec's words for the C5 comparison against
`kellyFraction`. -/
def specKellyFraction (p d mult cap : ℚ) : ℚ :=
  if ((d - 1) * p - (1 - p)) / (d - 1) ≤ 0 then 0
  else min cap (mult * (((d - 1) * p - (1 - p)) / (d - 1)))

/-- Classification of a candidate by the pre-insert gates, independent of
the Pick table: `none` means a gate raises, `some none` means the candidate
is dropped (low EV or non-positive Kelly) before the existence test, and
`some (some (ev, kelly))` means it reaches the existence test with these
values. -/
def candGate (s : Settings) (c : Candidate) : Option (Option (ℚ × ℚ)) :=
  match evPercent c.probability c.best_decimal with
  | .error _ => none
  | .ok ev =>
    if ev < s.pick_min_ev then some none
    else
      match kellyFraction c.probability c.best_decimal s.kelly_multiplier
          s.kelly_max_cap with
      | .error _ => none
      | .ok kf =>
        if min s.kelly_cap kf ≤ 0 then some none
        else some (some (ev, min s.kelly_cap kf))

/-- Whether a candidate reaches the existence test. -/
def candReaches (s : Settings) (c : Candidate) : Bool :=
  match candGate s c with
  | some (some _) => true
  | _ => false

/-! ## CLV engine (`app/services/clv.py`) -/

/-- Python `str.startswith`. -/
def strStartsWith (pre s : String) : Bool := pre.data.isPrefixOf s.data

/-- `_required_sides` from `app/services/clv.py`: soccer h2h markets close
over three sides including DRAW; other h2h and spreads over AWAY/HOME;
everything else over OVER/UNDER. -/
def clvRequiredSides (sport_key market_key : String) : List String :=
  if market_key = "h2h" ∧ strStartsWith "soccer_" sport_key = true then
    ["AWAY", "DRAW", "HOME"]
  else if market_key = "h2h" ∨ market_key = "spreads" then ["AWAY", "HOME"]
  else ["OVER", "UNDER"]

/-- The columns of a `Game` row the CLV engine reads. -/
structure ClvGame where
  sport_key : String
  commence_time : ℤ
deriving DecidableEq

/-- The columns of a `Pick` row the CLV engine reads and writes. -/
structure ClvPick where
  game_id : ℤ
  market_key : String
  side : String
  point : Option ℚ
  consensus_prob : ℚ
  best_decimal : ℚ
  best_book : String
  closing_consensus_prob : Option ℚ
  market_clv : Option ℚ
  closing_book_decimal : Option ℚ
  closing_book_implied_prob : Option ℚ
  book_clv : Option ℚ
  clv_computed_at : Option ℤ
deriving DecidableEq

/-- `ClosingMarketView` from `app/services/clv.py` (dictionaries as
association lists). -/
structure ClosingMarketView where
  consensus_probs : List (String × ℚ)
  best_decimal_by_side : List (String × ℚ)
  rows : List Row
  captured_at_used : ℤ
deriving DecidableEq

/-- The `WHERE` clause of the `per_timestamp` subquery of
`get_closing_market_view`: snapshots of the pick's game and market whose
side is required, captured strictly before the game's commence time, with a
matching point. -/
def clvFilteredSnaps (g : ClvGame) (pick : ClvPick) (snaps : List Row) :
    List Row :=
  snaps.filter (fun r =>
    decide (r.side ∈ clvRequiredSides g.sport_key pick.market_key) &&
    decide (r.captured_at < g.commence_time) && decide (r.point = pick.point))

/-- The row ordering key `OddsSnapshot.side.asc()` used inside one
bookmaker's closing timestamp. -/
def sideRowLE (a b : Row) : Prop := a.side ≤ b.side

instance : DecidableRel sideRowLE :=
  fun a b => inferInstanceAs (Decidable (a.side ≤ b.side))

/-- The `latest_complete` subquery of `get_closing_market_view` for one
bookmaker: the largest captured_at among this book's filtered timestamps at
which the number of distinct quoted sides equals the required side count. -/
def latestCompleteAt (filtered : List Row) (required : List String)
    (b : String) : Option ℤ :=
  (((filtered.filter (fun r => r.bookmaker = b)).map Row.captured_at).dedup.filter
    (fun t =>
      ((filtered.filter (fun r => r.bookmaker = b ∧ r.captured_at = t)).map
        Row.side).dedup.length = required.length)).max?

/-- The joined closing `rows` query of `get_closing_market_view`: for every
bookmaker its rows at its latest complete timestamp, ordered by (bookmaker
asc, side asc); within one bookmaker a single captured_at survives, so the
captured_at desc key is inert, and the id desc tiebreak only matters for
exact (bookmaker, captured_at, side) duplicates, which the content-hash
delta detection of ingest prevents. -/
def closingJoinRows (filtered : List Row) (required : List String) :
    List Row :=
  (List.insertionSort (· ≤ ·) (filtered.map Row.bookmaker).dedup).flatMap
    (fun b =>
      match latestCompleteAt filtered required b with
      | none => []
      | some t => List.insertionSort sideRowLE
          (filtered.filter (fun r => r.bookmaker = b ∧ r.captured_at = t)))

/-- The closing rows of a pick's market. -/
def clvRows (g : ClvGame) (pick : ClvPick) (snaps : List Row) : List Row :=
  closingJoinRows (clvFilteredSnaps g pick snaps)
    (clvRequiredSides g.sport_key pick.market_key)

/-- `included_books = sorted(complete_books.keys())` over the closing rows
(`complete_books` is the same last-wins completeness filter as in the
consensus builder). -/
def clvIncluded (g : ClvGame) (pick : ClvPick) (snaps : List Row) :
    List String :=
  List.insertionSort (· ≤ ·) (completeBooks (clvRows g pick snaps)
    (clvRequiredSides g.sport_key pick.market_key))

/-- The `books_probs` list of `get_closing_market_view`: per included book
the required-side fair probabilities of its closing rows. -/
def clvBooksProbs (g : ClvGame) (pick : ClvPick) (snaps : List Row) :
    List (List ℚ) :=
  (clvIncluded g pick snaps).map (fun b =>
    (clvRequiredSides g.sport_key pick.market_key).map
      (fun side => fairProbFor (clvRows g pick snaps) b side))

/-- The per-side best closing decimal: `max((decimal, bookmaker), ...)` over
the complete books quoting a non-null decimal, of which only the decimal is
kept (so the (value, bookmaker) tie-break is value-invariant). -/
def closingBestForSide (rows : List Row) (books : List String)
    (side : String) : Option ℚ :=
  (books.filterMap (fun b => bookQuote rows b side)).max?

/-- `get_closing_market_view` from `app/services/clv.py`.  The `Game` row is
passed as `game` (`None` when `session.get` finds nothing) and the
snapshots of the pick's game and market as `snaps`. -/
def getClosingMarketView (s : Settings) (game : Option ClvGame)
    (pick : ClvPick) (snaps : List Row) :
    Except String (Option ClosingMarketView) :=
  match game with
  | none => Except.ok none
  | some g =>
    if clvRows g pick snaps = [] then Except.ok none
    else if clvIncluded g pick snaps = [] then Except.ok none
    else if ((clvIncluded g pick snaps).length : ℤ) < s.consensus_min_books then
      Except.ok none
    else
      (consensusFairProb (clvRequiredSides g.sport_key pick.market_key)
          (clvBooksProbs g pick snaps)
          (consensusWeights s (clvIncluded g pick snaps))).bind (fun probs =>
        match ((clvRows g pick snaps).map Row.captured_at).max? with
        | none => Except.error "ValueError: max of empty sequence"
        | some t =>
          Except.ok (some
            { consensus_probs :=
                (clvRequiredSides g.sport_key pick.market_key).zip probs
              best_decimal_by_side :=
                (clvRequiredSides g.sport_key pick.market_key).filterMap
                  (fun side => (closingBestForSide (clvRows g pick snaps)
                    (completeBooks (clvRows g pick snaps)
                      (clvRequiredSides g.sport_key pick.market_key)) side).map
                    (fun d => (side, d)))
              rows := clvRows g pick snaps
              captured_at_used := t }))

/-- Python `dict.get` on the closing consensus probabilities. -/
def lookupSide (probs : List (String × ℚ)) (side : String) : Option ℚ :=
  (probs.find? (fun sp => decide (sp.1 = side))).map Prod.snd

/-- The `for row in closing_view.rows: ... break` scan of `compute_pick_clv`
(lines 167-170): the first closing row of the pick's best book and side
carrying a non-null decimal. -/
def closingBookDecimal (rows : List Row) (bestBook side : String) :
    Option ℚ :=
  rows.findSome? (fun r =>
    if r.bookmaker = bestBook ∧ r.side = side then r.decimal else none)

/-- `compute_pick_clv` from `app/services/clv.py` (lines 154-192).
`Except.ok none` is Python's `return False` (no valid closing data, pick
untouched); `Except.ok (some p2)` is `return True` with the mutated pick.
Python's float division by zero raises, hence the explicit zero guards. -/
def computePickClv (s : Settings) (game : Option ClvGame) (pick : ClvPick)
    (snaps : List Row) (now : ℤ) : Except String (Option ClvPick) :=
  (getClosingMarketView s game pick snaps).bind (fun cv =>
    match cv with
    | none => Except.ok none
    | some view =>
      match lookupSide view.consensus_probs pick.side with
      | none => Except.ok none
      | some closingConsensusProb =>
        if pick.best_decimal = 0 then
          Except.error "ZeroDivisionError: float division by zero"
        else
          (match closingBookDecimal view.rows pick.best_book pick.side with
           | none => Except.ok (none, none, none)
           | some d =>
             if d = 0 then
               Except.error "ZeroDivisionError: float division by zero"
             else
               (bookClvFn (1 / d) (1 / pick.best_decimal)).bind (fun bc =>
                 Except.ok (some d, some (1 / d), some bc))).bind (fun bookPart =>
            (marketClvFn closingConsensusProb pick.consensus_prob).bind (fun mc =>
              Except.ok (some { pick with
                closing_consensus_prob := some (quantize 8 closingConsensusProb)
                market_clv := some (quantize 8 mc)
                closing_book_decimal := bookPart.1.map (quantize 5)
                closing_book_implied_prob := bookPart.2.1.map (quantize 8)
                book_clv := bookPart.2.2.map (quantize 8)
                clv_computed_at := some now }))))

/-- The summary counters of `compute_clv_for_date`. -/
structure ClvSummary where
  processed : ℕ
  updated : ℕ
  skipped_no_close : ℕ
  skipped_already_computed : ℕ
deriving DecidableEq

/-- The pick loop of `compute_clv_for_date` (lines 213-222): each pick comes
with its `Game` row and its market snapshots; an already-computed pick is
skipped unless `force`, a `False` from `compute_pick_clv` counts as
`skipped_no_close`, and `True` counts as `updated` with the pick mutated in
place. -/
def clvRun (s : Settings) (force : Bool) (now : ℤ) :
    List (ClvPick × Option ClvGame × List Row) → ClvSummary →
    Except String (List ClvPick × ClvSummary)
  | [], sm => Except.ok ([], sm)
  | x :: xs, sm =>
    if x.1.clv_computed_at ≠ none ∧ force = false then
      (clvRun s force now xs
        { sm with skipped_already_computed := sm.skipped_already_computed + 1 }).bind
        (fun r => Except.ok (x.1 :: r.1, r.2))
    else
      (computePickClv s x.2.1 x.1 x.2.2 now).bind (fun res =>
        match res with
        | none =>
          (clvRun s force now xs
            { sm with skipped_no_close := sm.skipped_no_close + 1 }).bind
            (fun r => Except.ok (x.1 :: r.1, r.2))
        | some p2 =>
          (clvRun s force now xs { sm with updated := sm.updated + 1 }).bind
            (fun r => Except.ok (p2 :: r.1, r.2)))

/-- `compute_clv_for_date` from `app/services/clv.py`, acting on the picks
of the requested day (each with its game and snapshots). -/
def computeClvForDate (s : Settings) (force : Bool) (now : ℤ)
    (picks : List (ClvPick × Option ClvGame × List Row)) :
    Except String (List ClvPick × ClvSummary) :=
  clvRun s force now picks
    { processed := picks.length, updated := 0, skipped_no_close := 0,
      skipped_already_computed := 0 }

/-! ## Concrete evaluation inputs -/

/-- Settings with `CONSENSUS_MIN_BOOKS=1`, used to evaluate the consensus
builder on a one-bookmaker view. -/
def c3WitnessSettings : Settings := { defaultSettings with consensus_min_books := 1 }

/-- A one-bookmaker h2h market view with fair probabilities `[1/2, 1/2]`. -/
def c3WitnessView : MarketView :=
  { event_id := "ev1", sport_key := "basketball_nba", commence_time := 100,
    market_key := "h2h", point := none, sides := ["AWAY", "HOME"],
    rows := [{ event_id := "ev1", sport_key := "basketball_nba",
               commence_time := 100, market_key := "h2h",
               bookmaker := "pinnacle", side := "AWAY", point := none,
               captured_at := 5, american := some 100, decimal := some 2,
               fair_prob := 1/2 }],
    bookmakerFairProbs := [("pinnacle", [1/2, 1/2])],
    total_books := 1, sharp_books := 1, book_list := ["pinnacle"] }

/-- A two-bookmaker h2h view's raw rows, with a best-price tie on HOME. -/
def c4WitnessRows : List Row :=
  [{ event_id := "ev1", sport_key := "basketball_nba", commence_time := 100,
     market_key := "h2h", bookmaker := "a", side := "AWAY", point := none,
     captured_at := 1, american := some 100, decimal := some 2, fair_prob := 0 },
   { event_id := "ev1", sport_key := "basketball_nba", commence_time := 100,
     market_key := "h2h", bookmaker := "a", side := "HOME", point := none,
     captured_at := 1, american := some 200, decimal := some 3, fair_prob := 0 },
   { event_id := "ev1", sport_key := "basketball_nba", commence_time := 100,
     market_key := "h2h", bookmaker := "b", side := "AWAY", point := none,
     captured_at := 1, american := some 100, decimal := some 2, fair_prob := 0 },
   { event_id := "ev1", sport_key := "basketball_nba", commence_time := 100,
     market_key := "h2h", bookmaker := "b", side := "HOME", point := none,
     captured_at := 1, american := some 200, decimal := some 3, fair_prob := 0 }]

/-- The market view `build_market_views` produces from `c4WitnessRows`. -/
def c4WitnessView : MarketView :=
  { event_id := "ev1", sport_key := "basketball_nba", commence_time := 100,
    market_key := "h2h", point := none, sides := ["AWAY", "HOME"],
    rows := c4WitnessRows,
    bookmakerFairProbs := [("a", [0, 0]), ("b", [0, 0])],
    total_books := 2, sharp_books := 0, book_list := ["a", "b"] }

/-- A scoring tail that never raises, for evaluating the pick generator. -/
def okScore : Candidate → Except String Unit := fun _ => Except.ok ()

/-- A Game lookup with no games, for evaluating the pick generator. -/
def noGame : String → Option ℤ := fun _ => none

/-- The all-zero summary `_base_summary` starts from. -/
def emptySummary : PickRunSummary :=
  { total_views := 0, candidates := 0, skipped_insufficient_books := 0,
    skipped_low_ev := 0, skipped_existing := 0, new_rows := 0 }

/-- A concrete pick candidate (the spec's S3 scenario prices: p = 0.53 on
decimal 2.10). -/
def c5WitnessCandidate : Candidate :=
  { game_id := 1, market_key := "h2h", side := "HOME", point := none,
    probability := 53/100, best_decimal := 21/10, best_book := "pinnacle",
    included_books := 6, sharp_books_included := 1,
    captured_at_min := 0, captured_at_max := 0 }

/-- A single h2h row (one bookmaker quoting one side), giving the pick
generator one view with an insufficient bookmaker count. -/
def c6WitnessRows : List Row :=
  [{ event_id := "ev1", sport_key := "basketball_nba", commence_time := 100,
     market_key := "h2h", bookmaker := "pinnacle", side := "AWAY", point := none,
     captured_at := 5, american := some 100, decimal := some 2, fair_prob := 0 }]

/-- The summary the pick generator produces on `c6WitnessRows`. -/
def c6WitnessSummary : PickRunSummary :=
  { total_views := 1, candidates := 0, skipped_insufficient_books := 1,
    skipped_low_ev := 0, skipped_existing := 0, new_rows := 0 }

/-- A concrete game for the CLV engine. -/
def c7Game : ClvGame := { sport_key := "basketball_nba", commence_time := 100 }

/-- A concrete pick awaiting CLV. -/
def c7Pick : ClvPick :=
  { game_id := 1, market_key := "h2h", side := "HOME", point := none,
    consensus_prob := 1/2, best_decimal := 2, best_book := "pinnacle",
    closing_consensus_prob := none, market_clv := none,
    closing_book_decimal := none, closing_book_implied_prob := none,
    book_clv := none, clv_computed_at := none }

/-- A single pre-commence snapshot quoting only one side, so no bookmaker
has a complete closing timestamp. -/
def c7Snaps : List Row :=
  [{ event_id := "ev1", sport_key := "basketball_nba", commence_time := 100,
     market_key := "h2h", bookmaker := "pinnacle", side := "AWAY", point := none,
     captured_at := 5, american := some 100, decimal := some 2,
     fair_prob := 1/2 }]

end PrintCity

namespace PrintCity

/-! ## Helper lemmas -/

theorem pyRound_intCast (n : ℤ) : pyRound (n : ℚ) = n := by
  unfold pyRound
  simp [Int.floor_intCast]

theorem except_error_bind {α β : Type} (e : String) (k : α → Except String β) :
    (Except.error e >>= k) = Except.error e := rfl

theorem except_ok_bind {α β : Type} (a : α) (k : α → Except String β) :
    (Except.ok a >>= k) = k a := rfl

theorem except_pure {α : Type} (a : α) : (pure a : Except String α) = Except.ok a := rfl

theorem except_bind_ok {α β : Type} (a : α) (k : α → Except String β) :
    (Except.ok a).bind k = k a := rfl

/-! ## Claim C1 -/

/-- Claim C1 as stated is false: `american_to_decimal(-100) = 2.0`, and
`decimal_to_american(2.0)` takes the `d ≥ 2` branch, returning `+100`, not
`-100`. -/
theorem c1_counterexample :
    roundtripAmerican (-100) = .ok 100 ∧ roundtripAmerican (-100) ≠ .ok (-100) := by
  have h1 : americanToDecimal (-100) = .ok 2 := by
    unfold americanToDecimal
    rw [if_neg (by norm_num), if_neg (by norm_num)]
    norm_num
  have h2 : decimalToAmerican 2 = .ok 100 := by
    unfold decimalToAmerican
    rw [if_neg (by norm_num), if_pos (by norm_num)]
    have h : ((2 : ℚ) - 1) * 100 = ((100 : ℤ) : ℚ) := by norm_num
    rw [h, pyRound_intCast]
  have hrt : roundtripAmerican (-100) = .ok 100 := by
    unfold roundtripAmerican
    rw [h1]
    simpa [Except.bind] using h2
  exact ⟨hrt, by rw [hrt]; simp⟩

/-- Claim C1 (amended): for every integer american odds value `a` with
`a ≥ 100` or `a ≤ -101`, `decimal_to_american(american_to_decimal(a)) = a`.
(At `a = -100` the round trip returns `+100`, since `-100` and `+100` both
map to decimal odds `2.0`.) -/
theorem c1_roundtrip (a : ℤ) (h : 100 ≤ a ∨ a ≤ -101) :
    roundtripAmerican (a : ℚ) = .ok a := by
  unfold roundtripAmerican americanToDecimal decimalToAmerican
  rcases h with h | h
  · have ha : (100 : ℚ) ≤ (a : ℚ) := by exact_mod_cast h
    have hpos : (0 : ℚ) < (a : ℚ) := lt_of_lt_of_le (by norm_num) ha
    have habs : ¬ |(a : ℚ)| < 100 := by
      rw [abs_of_pos hpos]; linarith
    rw [if_neg habs, if_pos hpos]
    have hd1 : ¬ (1 + (a : ℚ) / 100 ≤ 1) := by
      have : (0 : ℚ) < (a : ℚ) / 100 := by positivity
      intro hcon; linarith
    have hd2 : (2 : ℚ) ≤ 1 + (a : ℚ) / 100 := by
      have : (1 : ℚ) ≤ (a : ℚ) / 100 := by
        rw [le_div_iff (by norm_num : (0:ℚ) < 100)]; linarith
      linarith
    simp only [Except.bind]
    rw [if_neg hd1, if_pos hd2]
    have : (1 + (a : ℚ) / 100 - 1) * 100 = (a : ℚ) := by field_simp
    rw [this, pyRound_intCast]
  · have ha : (a : ℚ) ≤ -101 := by exact_mod_cast h
    have hneg : (a : ℚ) < 0 := by linarith
    have habsval : |(a : ℚ)| = -(a : ℚ) := abs_of_neg hneg
    have habs : ¬ |(a : ℚ)| < 100 := by rw [habsval]; linarith
    have hnpos : ¬ (0 : ℚ) < (a : ℚ) := by linarith
    rw [if_neg habs, if_neg hnpos]
    simp only [Except.bind]
    have hfrac_pos : (0 : ℚ) < 100 / |(a : ℚ)| := by
      rw [habsval]
      exact div_pos (by norm_num) (by linarith)
    have hd1 : ¬ (1 + 100 / |(a : ℚ)| ≤ 1) := by intro hcon; linarith
    have hfrac_lt1 : 100 / |(a : ℚ)| < 1 := by
      rw [habsval, div_lt_one (by linarith)]; linarith
    have hd2 : ¬ (2 : ℚ) ≤ 1 + 100 / |(a : ℚ)| := by intro hcon; linarith
    rw [if_neg hd1, if_neg hd2]
    have hne : (-(a : ℚ)) ≠ 0 := by linarith
    have : -100 / (1 + 100 / |(a : ℚ)| - 1) = (a : ℚ) := by
      rw [habsval]
      field_simp
    rw [this, pyRound_intCast]

/-- Witness for `c1_roundtrip` at `a = -110`. -/
theorem c1_roundtrip_witness :
    (100 ≤ (-110 : ℤ) ∨ (-110 : ℤ) ≤ -101) ∧ roundtripAmerican ((-110 : ℤ) : ℚ) = .ok (-110) :=
  ⟨Or.inr (by decide), c1_roundtrip (-110) (Or.inr (by decide))⟩

/-! ## Claim C10 -/

/-- Claim C10: `allowed_markets` returns `["h2h"]` exactly when the count of
CLV-computed picks is strictly below `markets_unlock_clv_min` and
`["h2h", "spreads", "totals"]` otherwise; `enforce_market_allowed` permits a
requested market iff its normalised form is in that list, and otherwise
returns the structured refusal with code `market_locked_until_clv_100`, the
requested market, the CLV-computed count, the threshold and the allowed
markets. -/
theorem c10_market_unlock (clvCount : ℕ) (s : Settings) (m : String) :
    (allowedMarkets clvCount s = ["h2h"] ↔ (clvCount : ℤ) < s.markets_unlock_clv_min) ∧
    (allowedMarkets clvCount s = ["h2h", "spreads", "totals"] ↔
      ¬ (clvCount : ℤ) < s.markets_unlock_clv_min) ∧
    ((enforceMarketAllowed clvCount s m).1 = true ↔
      pyLower (pyStrip m) ∈ allowedMarkets clvCount s) ∧
    ((enforceMarketAllowed clvCount s m).1 = false →
      (enforceMarketAllowed clvCount s m).2 = some
        { code := "market_locked_until_clv_100"
          requested_market := pyLower (pyStrip m)
          clv_computed_count := clvCount
          threshold := s.markets_unlock_clv_min
          allowed_markets := allowedMarkets clvCount s }) := by
  refine ⟨?_, ?_, ?_, ?_⟩
  · by_cases h : (clvCount : ℤ) < s.markets_unlock_clv_min <;> simp [allowedMarkets, h]
  · by_cases h : (clvCount : ℤ) < s.markets_unlock_clv_min <;> simp [allowedMarkets, h]
  · by_cases hm : pyLower (pyStrip m) ∈ allowedMarkets clvCount s <;>
      simp [enforceMarketAllowed, hm]
  · by_cases hm : pyLower (pyStrip m) ∈ allowedMarkets clvCount s <;>
      simp [enforceMarketAllowed, hm]

/-- Witness for `c10_market_unlock`: with zero CLV-computed picks and the
default threshold `100`, requesting `spreads` is refused with the structured
reason. -/
theorem c10_market_unlock_witness :
    (enforceMarketAllowed 0 defaultSettings "spreads").1 = false ∧
    (enforceMarketAllowed 0 defaultSettings "spreads").2 = some
      { code := "market_locked_until_clv_100"
        requested_market := pyLower (pyStrip "spreads")
        clv_computed_count := 0
        threshold := defaultSettings.markets_unlock_clv_min
        allowed_markets := allowedMarkets 0 defaultSettings } :=
  ⟨by rfl, (c10_market_unlock 0 defaultSettings "spreads").2.2.2 (by rfl)⟩

/-! ## Claim C8 -/

theorem pyRoundR_intCast (n : ℤ) : pyRoundR (n : ℝ) = n := by
  unfold pyRoundR
  simp [Int.floor_intCast]

theorem quantize_of_intCast (dp : ℕ) (q : ℚ) (n : ℤ) (h : q * (10:ℚ) ^ dp = (n : ℚ)) :
    quantize dp q = (n : ℚ) / (10:ℚ) ^ dp := by
  unfold quantize
  rw [h, pyRound_intCast]

theorem quantize_zero (dp : ℕ) : quantize dp 0 = 0 := by
  rw [quantize_of_intCast dp 0 0 (by norm_num)]
  norm_num

theorem quantize_six_half : quantize 6 (1/2) = 1/2 := by
  rw [quantize_of_intCast 6 (1/2) 500000 (by norm_num)]
  norm_num

/-- Claim C8 as stated is false: for a weak group (here two windowed
market-CLV values `0.01` and `0.03`, i.e. `100` and `300` bps, with
`clv_min_n_for_prior = 30`), the published row has the neutral mean, median,
pct-positive and weak flag, but `sharpe_like` is computed from the actual
values: `mean/pstdev = 200/100 = 2 ≠ 0`. -/
theorem c8_counterexample :
    0 < (clvStatRow [1/100, 3/100] [] 30).n ∧
    ((clvStatRow [1/100, 3/100] [] 30).n : ℤ) < 30 ∧
    (clvStatRow [1/100, 3/100] [] 30).is_weak = 1 ∧
    (clvStatRow [1/100, 3/100] [] 30).mean_market_clv_bps = 0 ∧
    (clvStatRow [1/100, 3/100] [] 30).median_market_clv_bps = 0 ∧
    (clvStatRow [1/100, 3/100] [] 30).pct_positive_market_clv = 1/2 ∧
    (clvStatRow [1/100, 3/100] [] 30).sharpe_like = 2 ∧
    (clvStatRow [1/100, 3/100] [] 30).sharpe_like ≠ 0 := by
  have hmv : ([1/100, 3/100] : List ℚ).map bps = [100, 300] := by
    norm_num [bps]
  have hmean : meanQ [100, 300] = 200 := by norm_num [meanQ]
  have hvar : varianceQ [100, 300] = 10000 := by
    norm_num [varianceQ, meanQ]
  have hpst : pstdevR [100, 300] = 100 := by
    rw [pstdevR, hvar]
    rw [show (((10000:ℚ)):ℝ) = (100:ℝ)^2 by norm_num]
    exact Real.sqrt_sq (by norm_num)
  have hsh : sharpeLikeR [100, 300] = 2 := by
    simp only [sharpeLikeR]
    norm_num [hpst, hmean]
  have hr : roundR 6 (2:ℝ) = 2 := by
    unfold roundR
    rw [show (2:ℝ) * 10^6 = ((2000000:ℤ):ℝ) by norm_num, pyRoundR_intCast]
    norm_num
  have hrow : (clvStatRow [1/100, 3/100] [] 30).sharpe_like = 2 := by
    simp only [clvStatRow, hmv]
    norm_num
    rw [hsh]
    exact hr
  refine ⟨?_, ?_, ?_, ?_, ?_, ?_, hrow, by rw [hrow]; norm_num⟩
  · simp [clvStatRow, hmv]
  · simp [clvStatRow, hmv]
  · simp [clvStatRow, hmv]
  · simp only [clvStatRow, hmv]
    norm_num [quantize_zero]
  · simp only [clvStatRow, hmv]
    norm_num [quantize_zero]
  · simp only [clvStatRow, hmv]
    norm_num [quantize_six_half]

/-- Claim C8 (amended): for a group with `0 < n < clv_min_n_for_prior` the
published row has `mean_market_clv_bps = 0`, `median_market_clv_bps = 0`,
`pct_positive_market_clv = 0.5` and `is_weak = 1`, but `sharpe_like` is not
neutral: it is `round(mean/pstdev, 6)` of the actual windowed bps values
(`0` only when `n ≤ 1` or the population standard deviation is `0`). -/
theorem c8_weak_group_row (marketClvs bookClvs : List ℚ) (minN : ℤ)
    (h0 : 0 < marketClvs.length) (hw : (marketClvs.length : ℤ) < minN) :
    (clvStatRow marketClvs bookClvs minN).mean_market_clv_bps = 0 ∧
    (clvStatRow marketClvs bookClvs minN).median_market_clv_bps = 0 ∧
    (clvStatRow marketClvs bookClvs minN).pct_positive_market_clv = 1/2 ∧
    (clvStatRow marketClvs bookClvs minN).is_weak = 1 ∧
    (clvStatRow marketClvs bookClvs minN).sharpe_like =
      roundR 6 (sharpeLikeR (marketClvs.map bps)) := by
  have hnil : marketClvs ≠ [] := List.ne_nil_of_length_pos h0
  have qh : quantize 6 (2⁻¹ : ℚ) = 2⁻¹ := by
    rw [show ((2⁻¹ : ℚ)) = 1/2 by norm_num, quantize_six_half]
  refine ⟨?_, ?_, ?_, ?_, ?_⟩ <;>
    simp [clvStatRow, hnil, hw, quantize_zero, qh]

/-! ## List arithmetic helpers -/

theorem EPS_pos : (0 : ℚ) < EPS := by norm_num [EPS]

theorem EPS_lt_one : EPS < (1 : ℚ) := by norm_num [EPS]

theorem list_sum_map_add {α : Type} (l : List α) (f g : α → ℚ) :
    (l.map (fun x => f x + g x)).sum = (l.map f).sum + (l.map g).sum := by
  induction l with
  | nil => simp
  | cons x xs ih =>
    simp only [List.map_cons, List.sum_cons, ih]
    all_goals ring

theorem list_sum_map_mul_right {α : Type} (l : List α) (f : α → ℚ) (c : ℚ) :
    (l.map (fun x => f x * c)).sum = (l.map f).sum * c := by
  induction l with
  | nil => simp
  | cons x xs ih =>
    simp only [List.map_cons, List.sum_cons, ih]
    all_goals ring

theorem list_sum_map_div {α : Type} (l : List α) (f : α → ℚ) (c : ℚ) :
    (l.map (fun x => f x / c)).sum = (l.map f).sum / c := by
  induction l with
  | nil => simp
  | cons x xs ih =>
    simp only [List.map_cons, List.sum_cons, ih]
    all_goals ring

theorem sum_map_div (l : List ℚ) (c : ℚ) :
    (l.map (fun p => p / c)).sum = l.sum / c := by
  have := list_sum_map_div l id c
  simpa using this

theorem list_sum_comm {α : Type} (xs : List α) (n : ℕ) (g : ℕ → α → ℚ) :
    ((List.range n).map (fun i => (xs.map (g i)).sum)).sum
      = (xs.map (fun x => ((List.range n).map (fun i => g i x)).sum)).sum := by
  induction xs with
  | nil => simp
  | cons x xs ih =>
    simp only [List.map_cons, List.sum_cons]
    rw [← ih, ← list_sum_map_add]

theorem map_getD_range (l : List ℚ) :
    (List.range l.length).map (fun i => l.getD i 0) = l := by
  induction l with
  | nil => simp
  | cons x xs ih =>
    rw [List.length_cons, List.range_succ_eq_map, List.map_cons, List.map_map]
    have h2 : ((fun i => (x :: xs).getD i 0) ∘ Nat.succ) = fun i => xs.getD i 0 := by
      funext i
      simp [List.getD_cons_succ]
    rw [h2, ih]
    simp [List.getD_cons_zero]

/-! ## `remove_vig` and `consensus_fair_prob` success lemmas -/

theorem removeVig_ok (ps : List ℚ) (hne : ps ≠ [])
    (hv : ∀ p ∈ ps, 0 ≤ p ∧ p ≤ 1) (hs : EPS < ps.sum) :
    removeVig ps = .ok (ps.map (fun p => p / ps.sum)) := by
  have hval : ¬ (ps.any (fun p => decide (p < 0) || decide (1 < p)) = true) := by
    simp only [List.any_eq_true, Bool.or_eq_true, decide_eq_true_eq]
    push_neg
    intro p hp
    obtain ⟨h0, h1⟩ := hv p hp
    exact ⟨h0, h1⟩
  unfold removeVig
  rw [if_neg (by simpa using hne), if_neg hval, if_neg (not_le.mpr hs)]

theorem removeVig_ok_sum (ps : List ℚ) (hne : ps ≠ [])
    (hv : ∀ p ∈ ps, 0 ≤ p ∧ p ≤ 1) (hs : EPS < ps.sum) :
    (ps.map (fun p => p / ps.sum)).sum = 1 := by
  rw [sum_map_div]
  exact div_self (ne_of_gt (lt_trans EPS_pos hs))

theorem consensusFairProb_ok (sides : List String) (booksProbs : List (List ℚ))
    (weights : List ℚ)
    (hne : booksProbs ≠ [])
    (hlen : booksProbs.length = weights.length)
    (hw0 : ∀ w ∈ weights, 0 ≤ w)
    (hwe : ∃ w ∈ weights, EPS < w)
    (hsne : sides ≠ [])
    (hbl : ∀ bp ∈ booksProbs, bp.length = sides.length)
    (hbp : ∀ bp ∈ booksProbs, ∀ p ∈ bp, 0 ≤ p ∧ p ≤ 1)
    (hbs : ∀ bp ∈ booksProbs, bp.sum = 1) :
    ∃ out, consensusFairProb sides booksProbs weights = .ok out ∧
      out.sum = 1 ∧ out.length = sides.length := by
  have hW : EPS < weights.sum := by
    obtain ⟨w, hwmem, hww⟩ := hwe
    exact lt_of_lt_of_le hww (List.single_le_sum hw0 w hwmem)
  have hWpos : (0 : ℚ) < weights.sum := lt_trans EPS_pos hW
  set pairs := booksProbs.zip weights with hpairs
  have hsnd : pairs.map Prod.snd = weights := List.map_snd_zip _ _ (le_of_eq hlen.symm)
  set n := sides.length with hn
  set weighted := (List.range n).map
    (fun i => (pairs.map (fun bw => bw.1.getD i 0 * bw.2)).sum) with hweighted
  -- (A) the weighted per-side sums add up to the total weight
  have hA : weighted.sum = weights.sum := by
    rw [hweighted, list_sum_comm]
    have : pairs.map (fun bw : List ℚ × ℚ =>
        ((List.range n).map (fun i => bw.1.getD i 0 * bw.2)).sum) = pairs.map Prod.snd := by
      apply List.map_congr_left
      intro bw hbw
      obtain ⟨hb, _⟩ := List.of_mem_zip hbw
      rw [list_sum_map_mul_right]
      have hblen : bw.1.length = n := hbl bw.1 hb
      rw [← hblen, map_getD_range, hbs bw.1 hb, one_mul]
    rw [this, hsnd]
  -- (B) each weighted per-side sum is between 0 and the total weight
  have hB : ∀ x ∈ weighted, 0 ≤ x ∧ x ≤ weights.sum := by
    intro x hx
    rw [hweighted] at hx
    obtain ⟨i, _, rfl⟩ := List.mem_map.mp hx
    constructor
    · apply List.sum_nonneg
      intro y hy
      obtain ⟨bw, hbw, rfl⟩ := List.mem_map.mp hy
      obtain ⟨hb, hwmem⟩ := List.of_mem_zip hbw
      have h0 : 0 ≤ bw.1.getD i 0 := by
        rcases lt_or_ge i bw.1.length with h | h
        · rw [List.getD_eq_getElem _ _ h]
          exact (hbp bw.1 hb _ (List.getElem_mem h)).1
        · rw [List.getD_eq_default _ _ h]
      exact mul_nonneg h0 (hw0 _ hwmem)
    · rw [← hsnd]
      apply List.sum_le_sum
      intro bw hbw
      obtain ⟨hb, hwmem⟩ := List.of_mem_zip hbw
      have h1 : bw.1.getD i 0 ≤ 1 := by
        rcases lt_or_ge i bw.1.length with h | h
        · rw [List.getD_eq_getElem _ _ h]
          exact (hbp bw.1 hb _ (List.getElem_mem h)).2
        · rw [List.getD_eq_default _ _ h]; norm_num
      calc bw.1.getD i 0 * bw.2 ≤ 1 * bw.2 :=
            mul_le_mul_of_nonneg_right h1 (hw0 _ hwmem)
        _ = bw.2 := one_mul _
  set ws := weighted.map (fun x => x / weights.sum) with hws
  have hws_sum : ws.sum = 1 := by
    rw [hws, sum_map_div, hA]
    exact div_self (ne_of_gt hWpos)
  have hws_len : ws.length = n := by
    rw [hws, List.length_map, hweighted, List.length_map, List.length_range]
  have hws_ne : ws ≠ [] := by
    intro hcon
    rw [hcon] at hws_len
    simp only [List.length_nil] at hws_len
    exact hsne (List.eq_nil_of_length_eq_zero hws_len.symm)
  have hws_v : ∀ p ∈ ws, 0 ≤ p ∧ p ≤ 1 := by
    intro p hp
    rw [hws] at hp
    obtain ⟨x, hx, rfl⟩ := List.mem_map.mp hp
    obtain ⟨hx0, hx1⟩ := hB x hx
    constructor
    · exact div_nonneg hx0 (le_of_lt hWpos)
    · rw [div_le_one hWpos]
      exact hx1
  have hws_eps : EPS < ws.sum := by
    rw [hws_sum]; exact EPS_lt_one
  have hrv : removeVig ws = .ok (ws.map (fun p => p / ws.sum)) :=
    removeVig_ok ws hws_ne hws_v hws_eps
  have hout_sum : (ws.map (fun p => p / ws.sum)).sum = 1 :=
    removeVig_ok_sum ws hws_ne hws_v hws_eps
  refine ⟨ws.map (fun p => p / ws.sum), ?_, hout_sum, ?_⟩
  · unfold consensusFairProb
    rw [if_neg (by simpa using hne), if_neg (by omega), if_neg, if_neg
      (by exact not_le.mpr hW), if_neg (by simpa using hsne), if_neg, if_neg]
    · exact hrv
    · simp only [List.any_eq_true, Bool.or_eq_true, decide_eq_true_eq]
      push_neg
      intro bp hb p hp
      exact hbp bp hb p hp
    · simp only [List.any_eq_true, not_exists, not_and, decide_eq_true_eq]
      intro bp hb
      exact fun hcon => hcon (hbl bp hb)
    · simp only [List.any_eq_true, not_exists, not_and, decide_eq_true_eq]
      intro w hwmem
      exact not_lt.mpr (hw0 w hwmem)
  · rw [List.length_map, hws_len]

/-! ## Claim C3 -/

theorem consensusProbsPart_sufficient (s : Settings) (v : MarketView)
    (hc : ¬ ((v.bookmakerFairProbs.map Prod.fst).length : ℤ) < s.consensus_min_books)
    (hmin : 1 ≤ s.consensus_min_books)
    (heps : 0 ≤ s.consensus_eps)
    (hsw : EPS < s.sharp_weight) (hstw : EPS < s.standard_weight)
    (hsne : v.sides ≠ [])
    (hbl : ∀ bp ∈ v.bookmakerFairProbs, bp.2.length = v.sides.length)
    (hbp : ∀ bp ∈ v.bookmakerFairProbs, ∀ p ∈ bp.2, 0 ≤ p ∧ p ≤ 1)
    (hbs : ∀ bp ∈ v.bookmakerFairProbs, bp.2.sum = 1) :
    ∃ out, consensusProbsPart s v = .ok (some (v.sides.zip out), none) ∧
      out.sum = 1 ∧ out.length = v.sides.length := by
  have hbne : v.bookmakerFairProbs ≠ [] := by
    intro hcon
    rw [hcon] at hc
    simp only [List.map_nil, List.length_nil, Nat.cast_zero] at hc
    omega
  have hcf := consensusFairProb_ok v.sides (v.bookmakerFairProbs.map Prod.snd)
    (consensusWeights s (v.bookmakerFairProbs.map Prod.fst))
    (by simpa [List.map_eq_nil_iff] using hbne)
    (by simp [consensusWeights])
    (by
      intro w hw
      unfold consensusWeights at hw
      obtain ⟨b, _, rfl⟩ := List.mem_map.mp hw
      by_cases hb : pyLower b ∈ s.sharp_books.map pyLower
      · rw [if_pos hb]; exact le_of_lt (lt_trans EPS_pos hsw)
      · rw [if_neg hb]; exact le_of_lt (lt_trans EPS_pos hstw))
    (by
      obtain ⟨x, hx⟩ := List.exists_mem_of_ne_nil _ hbne
      have hxm : x.1 ∈ v.bookmakerFairProbs.map Prod.fst :=
        List.mem_map.mpr ⟨x, hx, rfl⟩
      refine ⟨if pyLower x.1 ∈ s.sharp_books.map pyLower then s.sharp_weight
              else s.standard_weight, ?_, ?_⟩
      · unfold consensusWeights
        exact List.mem_map.mpr ⟨x.1, hxm, rfl⟩
      · by_cases hb : pyLower x.1 ∈ s.sharp_books.map pyLower
        · rw [if_pos hb]; exact hsw
        · rw [if_neg hb]; exact hstw)
    hsne
    (by
      intro bp hb
      obtain ⟨x, hx, rfl⟩ := List.mem_map.mp hb
      exact hbl x hx)
    (by
      intro bp hb
      obtain ⟨x, hx, rfl⟩ := List.mem_map.mp hb
      exact hbp x hx)
    (by
      intro bp hb
      obtain ⟨x, hx, rfl⟩ := List.mem_map.mp hb
      exact hbs x hx)
  obtain ⟨out, hok, hsum, hlenout⟩ := hcf
  have hren : renormalize s.consensus_eps out = out := by
    unfold renormalize
    rw [if_neg]
    rw [hsum]
    simpa using heps
  refine ⟨out, ?_, hsum, hlenout⟩
  unfold consensusProbsPart
  rw [if_neg hc, hok, except_bind_ok, hren]
  rw [if_neg (by rw [hsum]; simpa using heps), except_pure]

theorem computeConsensusForView_ok (s : Settings) (v : MarketView)
    (pr : Option (List (String × ℚ)) × Option String) (mn mx : ℤ)
    (hpart : consensusProbsPart s v = .ok pr)
    (hmn : (v.rows.map Row.captured_at).min? = some mn)
    (hmx : (v.rows.map Row.captured_at).max? = some mx) :
    computeConsensusForView s v = .ok
      { event_id := v.event_id, sport_key := v.sport_key,
        commence_time := v.commence_time, market_key := v.market_key,
        point := v.point, consensus_probs := pr.1, consensus_reason := pr.2,
        included_books := (v.bookmakerFairProbs.map Prod.fst).length,
        sharp_books_included := ((v.bookmakerFairProbs.map Prod.fst).filter
          (fun b => pyLower b ∈ s.sharp_books.map pyLower)).length,
        best := bestAssoc v.rows,
        captured_at_min := mn, captured_at_max := mx } := by
  unfold computeConsensusForView
  rw [hpart, except_ok_bind, hmn, hmx]
  rfl

/-- Claim C3: for every market view (whose per-book fair probabilities come
from devigged snapshots, spec §3 invariant), `compute_consensus_for_view`
either emits `consensus_probs = None` with reason `insufficient_books`,
exactly when fewer than `consensus_min_books` bookmakers are fully quoted,
or emits a non-null `consensus_probs` whose values sum to `1` within
`consensus_eps`. -/
theorem c3_consensus_result (s : Settings) (v : MarketView)
    (hmin : 1 ≤ s.consensus_min_books)
    (heps : 0 ≤ s.consensus_eps)
    (hsw : EPS < s.sharp_weight) (hstw : EPS < s.standard_weight)
    (hsne : v.sides ≠ [])
    (hrne : v.rows ≠ [])
    (hbl : ∀ bp ∈ v.bookmakerFairProbs, bp.2.length = v.sides.length)
    (hbp : ∀ bp ∈ v.bookmakerFairProbs, ∀ p ∈ bp.2, 0 ≤ p ∧ p ≤ 1)
    (hbs : ∀ bp ∈ v.bookmakerFairProbs, bp.2.sum = 1) :
    ∃ res, computeConsensusForView s v = .ok res ∧
      res.included_books = v.bookmakerFairProbs.length ∧
      ((res.consensus_probs = none ∧ res.consensus_reason = some "insufficient_books") ↔
        (v.bookmakerFairProbs.length : ℤ) < s.consensus_min_books) ∧
      (¬ (v.bookmakerFairProbs.length : ℤ) < s.consensus_min_books →
        ∃ probs, res.consensus_probs = some probs ∧ res.consensus_reason = none ∧
          |(probs.map Prod.snd).sum - 1| ≤ s.consensus_eps) := by
  have hmapne : v.rows.map Row.captured_at ≠ [] := by
    simpa [List.map_eq_nil_iff] using hrne
  obtain ⟨mn, hmn⟩ : ∃ mn, (v.rows.map Row.captured_at).min? = some mn := by
    cases h : (v.rows.map Row.captured_at).min? with
    | none => exact absurd (List.min?_eq_none_iff.mp h) hmapne
    | some x => exact ⟨x, rfl⟩
  obtain ⟨mx, hmx⟩ : ∃ mx, (v.rows.map Row.captured_at).max? = some mx := by
    cases h : (v.rows.map Row.captured_at).max? with
    | none => exact absurd (List.max?_eq_none_iff.mp h) hmapne
    | some x => exact ⟨x, rfl⟩
  by_cases hc : (v.bookmakerFairProbs.length : ℤ) < s.consensus_min_books
  · have hc' : ((v.bookmakerFairProbs.map Prod.fst).length : ℤ) < s.consensus_min_books := by
      rw [List.length_map]; exact hc
    have hpart : consensusProbsPart s v = .ok (none, some "insufficient_books") := by
      unfold consensusProbsPart
      rw [if_pos hc', except_pure]
    refine ⟨_, computeConsensusForView_ok s v _ mn mx hpart hmn hmx, ?_, ?_, ?_⟩
    · simp [List.length_map]
    · simpa using hc
    · intro hcon
      exact absurd hc hcon
  · have hc' : ¬ ((v.bookmakerFairProbs.map Prod.fst).length : ℤ) < s.consensus_min_books := by
      rw [List.length_map]; exact hc
    obtain ⟨out, hpart, hsum, hlenout⟩ :=
      consensusProbsPart_sufficient s v hc' hmin heps hsw hstw hsne hbl hbp hbs
    refine ⟨_, computeConsensusForView_ok s v _ mn mx hpart hmn hmx, ?_, ?_, ?_⟩
    · simp [List.length_map]
    · simp [hc]
    · intro _
      refine ⟨v.sides.zip out, rfl, rfl, ?_⟩
      rw [List.map_snd_zip _ _ (le_of_eq hlenout)]
      rw [hsum]
      simpa using heps

/-- Witness for `c3_consensus_result`: a single fully-quoted bookmaker with
fair probabilities `[1/2, 1/2]` and `consensus_min_books = 1`. -/
theorem c3_consensus_result_witness :
    ∃ res, computeConsensusForView c3WitnessSettings c3WitnessView = .ok res ∧
      res.included_books = c3WitnessView.bookmakerFairProbs.length ∧
      ((res.consensus_probs = none ∧ res.consensus_reason = some "insufficient_books") ↔
        (c3WitnessView.bookmakerFairProbs.length : ℤ) < c3WitnessSettings.consensus_min_books) ∧
      (¬ (c3WitnessView.bookmakerFairProbs.length : ℤ) < c3WitnessSettings.consensus_min_books →
        ∃ probs, res.consensus_probs = some probs ∧ res.consensus_reason = none ∧
          |(probs.map Prod.snd).sum - 1| ≤ c3WitnessSettings.consensus_eps) :=
  c3_consensus_result c3WitnessSettings c3WitnessView
    (by norm_num [c3WitnessSettings, defaultSettings])
    (by norm_num [c3WitnessSettings, defaultSettings])
    (by norm_num [c3WitnessSettings, defaultSettings, EPS])
    (by norm_num [c3WitnessSettings, defaultSettings, EPS])
    (by simp [c3WitnessView])
    (by simp [c3WitnessView])
    (by
      intro bp hb
      simp only [c3WitnessView, List.mem_singleton] at hb
      subst hb
      simp [c3WitnessView])
    (by
      intro bp hb
      simp only [c3WitnessView, List.mem_singleton] at hb
      subst hb
      intro p hp
      simp only [List.mem_cons, List.mem_singleton, List.not_mem_nil, or_false] at hp
      rcases hp with rfl | rfl <;> norm_num)
    (by
      intro bp hb
      simp only [c3WitnessView, List.mem_singleton] at hb
      subst hb
      norm_num)

/-! ## Claim C4 -/

theorem rowLE_book {a b : Row} (h : rowLE a b) : a.bookmaker ≤ b.bookmaker := by
  unfold rowLE rowSortKey at h
  rcases (Prod.Lex.le_iff _ _).mp h with h1 | ⟨h1, _⟩
  · exact le_of_lt h1
  · exact le_of_eq h1

theorem foldl_bestStep_eq (rows : List Row) :
    ∀ (acc : String → Option (ℚ × String)) (s' : String),
      (rows.foldl bestStep acc) s' = foldBest1 (acc s') (sideQuotes s' rows) := by
  induction rows with
  | nil => intro acc s'; rfl
  | cons r rest ih =>
    intro acc s'
    rw [List.foldl_cons, ih]
    by_cases hside : r.side = s'
    · cases hdec : r.decimal with
      | none =>
        have h1 : bestStep acc r = acc := by unfold bestStep; rw [hdec]
        have h2 : sideQuotes s' (r :: rest) = sideQuotes s' rest := by
          simp [sideQuotes, hside, hdec]
        rw [h1, h2]
      | some d =>
        have h2 : sideQuotes s' (r :: rest) = (r.bookmaker, d) :: sideQuotes s' rest := by
          simp [sideQuotes, hside, hdec]
        rw [h2]
        have h3 : foldBest1 (acc s') ((r.bookmaker, d) :: sideQuotes s' rest)
            = foldBest1
                (match acc s' with
                 | none => some (d, r.bookmaker)
                 | some md => if md.1 < d then some (d, r.bookmaker) else some md)
                (sideQuotes s' rest) := by
          unfold foldBest1
          rw [List.foldl_cons]
          cases acc s' with
          | none => rfl
          | some md => by_cases hlt : md.1 < d <;> simp [hlt]
        rw [h3]
        congr 1
        unfold bestStep
        rw [hdec, hside]
        cases hacc : acc s' with
        | none => simp
        | some md => by_cases hlt : md.1 < d <;> simp [hlt, hacc]
    · have h1 : (bestStep acc r) s' = acc s' := by
        have hne : ¬ s' = r.side := fun h => hside h.symm
        unfold bestStep
        cases hdec : r.decimal with
        | none => rfl
        | some d =>
          cases hacc : acc r.side with
          | none => simp [hne]
          | some md =>
            by_cases hlt : md.1 < d <;> simp [hlt, hne]
      have h2 : sideQuotes s' (r :: rest) = sideQuotes s' rest := by
        simp [sideQuotes, hside]
      rw [h1, h2]

theorem foldBest1_some_acc (q : List (String × ℚ)) :
    ∀ m : ℚ × String, (foldBest1 (some m) q).isSome = true := by
  induction q with
  | nil => intro m; rfl
  | cons x xs ih =>
    intro m
    unfold foldBest1 at ih ⊢
    rw [List.foldl_cons]
    by_cases hlt : m.1 < x.2
    · simpa [hlt] using ih (x.2, x.1)
    · simpa [hlt] using ih m

theorem foldBest1_none_iff (q : List (String × ℚ)) :
    foldBest1 none q = none ↔ q = [] := by
  cases q with
  | nil => simp [foldBest1]
  | cons x xs =>
    have h := foldBest1_some_acc xs (x.2, x.1)
    constructor
    · intro hcon
      have hstep : foldBest1 none (x :: xs) = foldBest1 (some (x.2, x.1)) xs := by
        unfold foldBest1
        rw [List.foldl_cons]
      rw [hstep] at hcon
      rw [hcon] at h
      simp at h
    · intro hcon
      simp at hcon

theorem foldBest1_some_spec (xs : List (String × ℚ)) :
    ∀ (d₀ : ℚ) (b₀ : String),
      xs.Pairwise (fun a b => a.1 ≤ b.1) →
      (∀ x ∈ xs, b₀ ≤ x.1) →
      ∀ d b, foldBest1 (some (d₀, b₀)) xs = some (d, b) →
        (d = d₀ ∧ b = b₀ ∧ ∀ x ∈ xs, x.2 ≤ d₀) ∨
        ((b, d) ∈ xs ∧ (∀ x ∈ xs, x.2 ≤ d) ∧ d₀ < d ∧
          (∀ x ∈ xs, x.2 = d → b ≤ x.1)) := by
  induction xs with
  | nil =>
    intro d₀ b₀ _ _ d b h
    simp only [foldBest1, List.foldl_nil, Option.some.injEq, Prod.mk.injEq] at h
    exact Or.inl ⟨h.1.symm, h.2.symm, by simp⟩
  | cons y ys ih =>
    intro d₀ b₀ hsort hb d b h
    have hsort' : ys.Pairwise (fun a b => a.1 ≤ b.1) := (List.pairwise_cons.mp hsort).2
    have hyle : ∀ x ∈ ys, y.1 ≤ x.1 := (List.pairwise_cons.mp hsort).1
    by_cases hlt : d₀ < y.2
    · have hstep : foldBest1 (some (d₀, b₀)) (y :: ys) = foldBest1 (some (y.2, y.1)) ys := by
        unfold foldBest1
        rw [List.foldl_cons]
        simp [hlt]
      rw [hstep] at h
      rcases ih y.2 y.1 hsort' hyle d b h with ⟨hd, hbb, hbound⟩ | ⟨hmem, hbound, hgt, hties⟩
      · subst hd
        subst hbb
        refine Or.inr ⟨List.mem_cons_self _ _, ?_, hlt, ?_⟩
        · intro x hx
          rcases List.mem_cons.mp hx with rfl | hx'
          · exact le_refl _
          · exact hbound x hx'
        · intro x hx _
          rcases List.mem_cons.mp hx with rfl | hx'
          · exact le_refl _
          · exact hyle x hx'
      · refine Or.inr ⟨List.mem_cons_of_mem _ hmem, ?_, lt_trans hlt hgt, ?_⟩
        · intro x hx
          rcases List.mem_cons.mp hx with rfl | hx'
          · exact le_of_lt hgt
          · exact hbound x hx'
        · intro x hx hxd
          rcases List.mem_cons.mp hx with rfl | hx'
          · exact absurd hxd (ne_of_lt hgt)
          · exact hties x hx' hxd
    · have hstep : foldBest1 (some (d₀, b₀)) (y :: ys) = foldBest1 (some (d₀, b₀)) ys := by
        unfold foldBest1
        rw [List.foldl_cons]
        simp [hlt]
      rw [hstep] at h
      have hb' : ∀ x ∈ ys, b₀ ≤ x.1 := fun x hx => hb x (List.mem_cons_of_mem _ hx)
      rcases ih d₀ b₀ hsort' hb' d b h with ⟨hd, hbb, hbound⟩ | ⟨hmem, hbound, hgt, hties⟩
      · refine Or.inl ⟨hd, hbb, ?_⟩
        intro x hx
        rcases List.mem_cons.mp hx with rfl | hx'
        · exact le_of_not_lt hlt
        · exact hbound x hx'
      · refine Or.inr ⟨List.mem_cons_of_mem _ hmem, ?_, hgt, ?_⟩
        · intro x hx
          rcases List.mem_cons.mp hx with rfl | hx'
          · exact le_of_lt (lt_of_le_of_lt (le_of_not_lt hlt) hgt)
          · exact hbound x hx'
        · intro x hx hxd
          rcases List.mem_cons.mp hx with rfl | hx'
          · exact absurd hxd (ne_of_lt (lt_of_le_of_lt (le_of_not_lt hlt) hgt))
          · exact hties x hx' hxd

theorem foldBest1_spec (q : List (String × ℚ))
    (hsort : q.Pairwise (fun a b => a.1 ≤ b.1)) :
    ∀ d b, foldBest1 none q = some (d, b) →
      (b, d) ∈ q ∧ (∀ x ∈ q, x.2 ≤ d) ∧ (∀ x ∈ q, x.2 = d → b ≤ x.1) := by
  cases q with
  | nil => intro d b h; simp [foldBest1] at h
  | cons x xs =>
    intro d b h
    have hstep : foldBest1 none (x :: xs) = foldBest1 (some (x.2, x.1)) xs := by
      unfold foldBest1
      rw [List.foldl_cons]
    rw [hstep] at h
    have hsort' : xs.Pairwise (fun a b => a.1 ≤ b.1) := (List.pairwise_cons.mp hsort).2
    have hxle : ∀ z ∈ xs, x.1 ≤ z.1 := (List.pairwise_cons.mp hsort).1
    rcases foldBest1_some_spec xs x.2 x.1 hsort' hxle d b h with
      ⟨hd, hbb, hbound⟩ | ⟨hmem, hbound, _, hties⟩
    · subst hd
      subst hbb
      refine ⟨List.mem_cons_self _ _, ?_, ?_⟩
      · intro z hz
        rcases List.mem_cons.mp hz with rfl | hz'
        · exact le_refl _
        · exact hbound z hz'
      · intro z hz _
        rcases List.mem_cons.mp hz with rfl | hz'
        · exact le_refl _
        · exact hxle z hz'
    · refine ⟨List.mem_cons_of_mem _ hmem, ?_, ?_⟩
      · intro z hz
        rcases List.mem_cons.mp hz with rfl | hz'
        · exact le_of_lt (by assumption)
        · exact hbound z hz'
      · intro z hz hzd
        rcases List.mem_cons.mp hz with rfl | hz'
        · exact absurd hzd (ne_of_lt (by assumption))
        · exact hties z hz' hzd

theorem mkMarketView_ok_spec (s : Settings) (pt : Option ℚ) (viewRows : List Row)
    (v : MarketView) (hv : mkMarketView s pt viewRows = .ok v) :
    ∃ r0, viewRows.head? = some r0 ∧
      requiredSidesE r0.market_key = .ok v.sides ∧
      v.rows = List.insertionSort rowLE viewRows ∧
      v.book_list = List.insertionSort (· ≤ ·) (completeBooks viewRows v.sides) ∧
      v.bookmakerFairProbs = v.book_list.map
        (fun b => (b, v.sides.map (fun side => fairProbFor viewRows b side))) := by
  cases viewRows with
  | nil => simp [mkMarketView] at hv
  | cons r0 rest =>
    simp only [mkMarketView] at hv
    cases hreq : requiredSidesE r0.market_key with
    | error e =>
      rw [hreq] at hv
      rw [except_error_bind] at hv
      simp at hv
    | ok required =>
      rw [hreq] at hv
      rw [except_ok_bind, except_pure] at hv
      have hveq := (Except.ok.injEq _ _).mp hv.symm
      subst hveq
      exact ⟨r0, rfl, hreq, rfl, rfl, rfl⟩

theorem mem_sideQuotes (rows : List Row) (sd b : String) (d : ℚ) :
    (b, d) ∈ sideQuotes sd rows ↔
      ∃ r ∈ rows, r.bookmaker = b ∧ r.side = sd ∧ r.decimal = some d := by
  unfold sideQuotes
  rw [List.mem_filterMap]
  constructor
  · rintro ⟨r, hr, hf⟩
    by_cases h : r.side = sd
    · rw [if_pos h] at hf
      cases hd : r.decimal with
      | none => rw [hd] at hf; simp at hf
      | some dd =>
        rw [hd] at hf
        have hf' : (r.bookmaker, dd) = (b, d) := (Option.some.injEq _ _).mp hf
        have hfb : r.bookmaker = b := ((Prod.mk.injEq _ _ _ _).mp hf').1
        have hfd : dd = d := ((Prod.mk.injEq _ _ _ _).mp hf').2
        exact ⟨r, hr, hfb, h, by rw [hd, hfd]⟩
    · rw [if_neg h] at hf
      simp at hf
  · rintro ⟨r, hr, hb, hs', hd⟩
    refine ⟨r, hr, ?_⟩
    rw [if_pos hs', hd]
    simp [hb]

theorem bookQuote_eq_some_iff (rows : List Row) (b sd : String)
    (huniq : ∀ r1 ∈ rows, ∀ r2 ∈ rows,
      r1.bookmaker = r2.bookmaker → r1.side = r2.side → r1 = r2) (d : ℚ) :
    bookQuote rows b sd = some d ↔
      ∃ r ∈ rows, r.bookmaker = b ∧ r.side = sd ∧ r.decimal = some d := by
  unfold bookQuote lastRowFor
  constructor
  · intro h
    cases hl : (rows.filter (fun r => decide (r.bookmaker = b ∧ r.side = sd))).getLast? with
    | none => rw [hl] at h; simp at h
    | some r =>
      rw [hl] at h
      simp only [Option.some_bind] at h
      have hne : rows.filter (fun r => decide (r.bookmaker = b ∧ r.side = sd)) ≠ [] := by
        intro hcon
        rw [hcon] at hl
        simp at hl
      have hmem : r ∈ rows.filter (fun r => decide (r.bookmaker = b ∧ r.side = sd)) := by
        rw [List.getLast?_eq_getLast _ hne] at hl
        have heq := (Option.some.injEq _ _).mp hl
        rw [← heq]
        exact List.getLast_mem hne
      have hprops := List.mem_filter.mp hmem
      have hbs := of_decide_eq_true hprops.2
      exact ⟨r, hprops.1, hbs.1, hbs.2, h⟩
  · rintro ⟨r, hr, hb, hs', hd⟩
    have hfil : r ∈ rows.filter (fun r => decide (r.bookmaker = b ∧ r.side = sd)) :=
      List.mem_filter.mpr ⟨hr, by simp [hb, hs']⟩
    have hne : rows.filter (fun r => decide (r.bookmaker = b ∧ r.side = sd)) ≠ [] :=
      List.ne_nil_of_mem hfil
    have hl := List.getLast?_eq_getLast _ hne
    rw [hl]
    have hmem := List.getLast_mem hne
    have hprops := List.mem_filter.mp hmem
    have hbs := of_decide_eq_true hprops.2
    have heq := huniq r hr _ hprops.1 (by rw [hb, hbs.1]) (by rw [hs', hbs.2])
    rw [← heq]
    simp [hd]

theorem sideQuotes_sorted (rows : List Row) (sd : String) :
    (sideQuotes sd (List.insertionSort rowLE rows)).Pairwise (fun a b => a.1 ≤ b.1) := by
  have hs : List.Sorted rowLE (List.insertionSort rowLE rows) :=
    List.sorted_insertionSort rowLE rows
  unfold sideQuotes
  rw [List.pairwise_filterMap]
  refine hs.imp ?_
  intro a b hab
  intro q hq q' hq'
  have hget : ∀ (r : Row) (z : String × ℚ),
      z ∈ (if r.side = sd then r.decimal.map (fun d => (r.bookmaker, d)) else none) →
      z.1 = r.bookmaker := by
    intro r z hz
    by_cases h : r.side = sd
    · rw [if_pos h] at hz
      cases hd : r.decimal with
      | none => rw [hd] at hz; simp at hz
      | some dd =>
        rw [hd] at hz
        have h2 : some (r.bookmaker, dd) = some z := hz
        rw [← (Option.some.injEq _ _).mp h2]
    · rw [if_neg h] at hz
      simp at hz
  rw [hget a q hq, hget b q' hq']
  exact rowLE_book hab

/-- Claim C4 (with the upstream guarantees of `get_latest_group_rows`: every
bookmaker in a view is fully quoted — the SQL keeps only timestamps with all
required sides — and a bookmaker quotes each side at most once in a view —
snapshot uniqueness): in every `ConsensusResult` produced from a market
view, `best_decimal[side]`/`best_book[side]` name the maximum decimal price
over the included bookmakers and the bookmaker attaining it, ties broken by
the lexicographically smallest bookmaker name. -/
theorem c4_best_price (s : Settings) (pt : Option ℚ) (viewRows : List Row)
    (v : MarketView) (hv : mkMarketView s pt viewRows = .ok v)
    (hcomp : ∀ r ∈ viewRows, r.bookmaker ∈ completeBooks viewRows v.sides)
    (huniq : ∀ r1 ∈ viewRows, ∀ r2 ∈ viewRows,
      r1.bookmaker = r2.bookmaker → r1.side = r2.side → r1 = r2) :
    (∀ res, computeConsensusForView s v = .ok res → res.best = bestAssoc v.rows) ∧
    ∀ sd : String,
      (∃ b ∈ v.book_list, ∃ d, bookQuote viewRows b sd = some d) →
      ∃ d b, bestAssoc v.rows sd = some (d, b) ∧
        b ∈ v.book_list ∧ bookQuote viewRows b sd = some d ∧
        (∀ b' ∈ v.book_list, ∀ d', bookQuote viewRows b' sd = some d' → d' ≤ d) ∧
        (∀ b' ∈ v.book_list, bookQuote viewRows b' sd = some d → b ≤ b') := by
  obtain ⟨r0, hh, hreq, hrows, hbooks, hprobs⟩ := mkMarketView_ok_spec s pt viewRows v hv
  have hviewne : viewRows ≠ [] := by
    intro hcon
    rw [hcon] at hh
    simp at hh
  have hvrne : v.rows ≠ [] := by
    rw [hrows]
    intro hcon
    have hperm := List.perm_insertionSort rowLE viewRows
    rw [hcon] at hperm
    exact hviewne hperm.symm.eq_nil
  have hquotes_perm : ∀ sd, (sideQuotes sd v.rows).Perm (sideQuotes sd viewRows) := by
    intro sd
    rw [hrows]
    unfold sideQuotes
    exact List.Perm.filterMap _ (List.perm_insertionSort rowLE viewRows)
  have hbook_mem : ∀ b, b ∈ v.book_list ↔ b ∈ completeBooks viewRows v.sides := by
    intro b
    rw [hbooks]
    exact (List.perm_insertionSort _ _).mem_iff
  constructor
  · intro res hres
    unfold computeConsensusForView at hres
    cases hpart : consensusProbsPart s v with
    | error e =>
      rw [hpart, except_error_bind] at hres
      simp at hres
    | ok pr =>
      have hmapne : v.rows.map Row.captured_at ≠ [] := by
        simpa [List.map_eq_nil_iff] using hvrne
      obtain ⟨mn, hmn⟩ : ∃ mn, (v.rows.map Row.captured_at).min? = some mn := by
        cases hx : (v.rows.map Row.captured_at).min? with
        | none => exact absurd (List.min?_eq_none_iff.mp hx) hmapne
        | some x => exact ⟨x, rfl⟩
      obtain ⟨mx, hmx⟩ : ∃ mx, (v.rows.map Row.captured_at).max? = some mx := by
        cases hx : (v.rows.map Row.captured_at).max? with
        | none => exact absurd (List.max?_eq_none_iff.mp hx) hmapne
        | some x => exact ⟨x, rfl⟩
      have hok := computeConsensusForView_ok s v pr mn mx hpart hmn hmx
      unfold computeConsensusForView at hok
      rw [hok] at hres
      have := (Except.ok.injEq _ _).mp hres
      rw [← this]
  · intro sd hex
    obtain ⟨b0, hb0, d0, hq0⟩ := hex
    have hq0' : (b0, d0) ∈ sideQuotes sd viewRows := by
      rw [mem_sideQuotes]
      exact (bookQuote_eq_some_iff viewRows b0 sd huniq d0).mp hq0
    have hqne : sideQuotes sd v.rows ≠ [] := by
      intro hcon
      have := (hquotes_perm sd).mem_iff.mpr hq0'
      rw [hcon] at this
      simp at this
    have hsorted : (sideQuotes sd v.rows).Pairwise (fun a b => a.1 ≤ b.1) := by
      rw [hrows]
      exact sideQuotes_sorted viewRows sd
    have hbest_eq : bestAssoc v.rows sd = foldBest1 none (sideQuotes sd v.rows) := by
      unfold bestAssoc
      exact foldl_bestStep_eq v.rows (fun _ => none) sd
    obtain ⟨d, b, hdb⟩ : ∃ d b, bestAssoc v.rows sd = some (d, b) := by
      rw [hbest_eq]
      cases hx : foldBest1 none (sideQuotes sd v.rows) with
      | none => exact absurd ((foldBest1_none_iff _).mp hx) hqne
      | some r => exact ⟨r.1, r.2, by rw [Prod.mk.eta]⟩
    obtain ⟨hmem, hbound, hties⟩ :=
      foldBest1_spec (sideQuotes sd v.rows) hsorted d b (by rw [← hbest_eq]; exact hdb)
    have hmem' : (b, d) ∈ sideQuotes sd viewRows := (hquotes_perm sd).mem_iff.mp hmem
    obtain ⟨r, hrmem, hrb, hrs, hrd⟩ := (mem_sideQuotes viewRows sd b d).mp hmem'
    refine ⟨d, b, hdb, ?_, ?_, ?_, ?_⟩
    · rw [hbook_mem]
      rw [← hrb]
      exact hcomp r hrmem
    · exact (bookQuote_eq_some_iff viewRows b sd huniq d).mpr ⟨r, hrmem, hrb, hrs, hrd⟩
    · intro b' _ d' hq'
      have : (b', d') ∈ sideQuotes sd v.rows := by
        rw [(hquotes_perm sd).mem_iff, mem_sideQuotes]
        exact (bookQuote_eq_some_iff viewRows b' sd huniq d').mp hq'
      exact hbound (b', d') this
    · intro b' _ hq'
      have : (b', d) ∈ sideQuotes sd v.rows := by
        rw [(hquotes_perm sd).mem_iff, mem_sideQuotes]
        exact (bookQuote_eq_some_iff viewRows b' sd huniq d).mp hq'
      exact hties (b', d) this rfl

theorem c4_mkView_eval :
    mkMarketView defaultSettings none c4WitnessRows = .ok c4WitnessView := by
  have hAH : ("AWAY" : String) < "HOME" := String.lt_iff_toList_lt.mpr (by decide)
  have hab : ("a" : String) < "b" := String.lt_iff_toList_lt.mpr (by decide)
  have hbooks : List.insertionSort (fun x1 x2 : String => x1 ≤ x2) ["a", "b"] = ["a", "b"] := by
    apply List.Sorted.insertionSort_eq
    simp [List.sorted_cons]
    decide
  have hkey : ∀ x y : Row, x.bookmaker < y.bookmaker → rowLE x y := by
    intro x y h
    exact (Prod.Lex.le_iff _ _).mpr (Or.inl h)
  have hkeyside : ∀ x y : Row, x.bookmaker = y.bookmaker → x.side < y.side → rowLE x y := by
    intro x y hb hs
    exact (Prod.Lex.le_iff _ _).mpr (Or.inr ⟨hb, (Prod.Lex.le_iff _ _).mpr (Or.inl hs)⟩)
  have hrowsorted : List.Sorted rowLE c4WitnessRows := by
    unfold c4WitnessRows
    refine List.Pairwise.cons ?_ (List.Pairwise.cons ?_ (List.Pairwise.cons ?_
      (List.pairwise_singleton _ _)))
    · intro z hz
      simp only [List.mem_cons, List.mem_singleton, List.not_mem_nil, or_false] at hz
      rcases hz with rfl | rfl | rfl
      · exact hkeyside _ _ rfl hAH
      · exact hkey _ _ hab
      · exact hkey _ _ hab
    · intro z hz
      simp only [List.mem_cons, List.mem_singleton, List.not_mem_nil, or_false] at hz
      rcases hz with rfl | rfl
      · exact hkey _ _ hab
      · exact hkey _ _ hab
    · intro z hz
      simp only [List.mem_singleton, List.mem_cons, List.not_mem_nil, or_false] at hz
      subst hz
      exact hkeyside _ _ rfl hAH
  have hrows : List.insertionSort rowLE c4WitnessRows = c4WitnessRows :=
    List.Sorted.insertionSort_eq hrowsorted
  have hcb : completeBooks c4WitnessRows ["AWAY", "HOME"] = ["a", "b"] := by rfl
  show mkMarketView defaultSettings none c4WitnessRows = .ok c4WitnessView
  unfold c4WitnessRows at hrows hcb ⊢
  simp only [mkMarketView]
  rw [show requiredSidesE "h2h" = .ok ["AWAY", "HOME"] from rfl]
  rw [except_ok_bind, except_pure]
  rw [hcb, hbooks, hrows]
  rfl

/-- Witness for `c4_best_price`: two bookmakers `a`, `b`, both fully quoting
an h2h market, tied on the best HOME price; the conclusion names the
lexicographically smaller book `a`. -/
theorem c4_best_price_witness :
    (∀ res, computeConsensusForView defaultSettings c4WitnessView = .ok res →
      res.best = bestAssoc c4WitnessView.rows) ∧
    ∀ sd : String,
      (∃ b ∈ c4WitnessView.book_list, ∃ d, bookQuote c4WitnessRows b sd = some d) →
      ∃ d b, bestAssoc c4WitnessView.rows sd = some (d, b) ∧
        b ∈ c4WitnessView.book_list ∧ bookQuote c4WitnessRows b sd = some d ∧
        (∀ b' ∈ c4WitnessView.book_list, ∀ d',
          bookQuote c4WitnessRows b' sd = some d' → d' ≤ d) ∧
        (∀ b' ∈ c4WitnessView.book_list, bookQuote c4WitnessRows b' sd = some d → b ≤ b') :=
  c4_best_price defaultSettings none c4WitnessRows c4WitnessView c4_mkView_eval
    (by decide) (by decide)

/-! ## Claim C9 -/

/-- The strict key order on canonical side entries. -/
def sideLT (a b : SideEntry) : Prop := a.side < b.side

instance : IsAntisymm SideEntry sideLT :=
  ⟨fun _ _ h1 h2 => absurd h2 (lt_asymm h1)⟩

theorem sides_sorted_eq_of_perm (l₁ l₂ : List SideEntry) (hp : l₁.Perm l₂)
    (hnd : (l₁.map SideEntry.side).Nodup) :
    List.insertionSort sideLE l₁ = List.insertionSort sideLE l₂ := by
  have hperm : (List.insertionSort sideLE l₁).Perm (List.insertionSort sideLE l₂) :=
    (List.perm_insertionSort sideLE l₁).trans (hp.trans (List.perm_insertionSort sideLE l₂).symm)
  have hnd₂ : (l₂.map SideEntry.side).Nodup := ((hp.map SideEntry.side).nodup_iff).mp hnd
  have key : ∀ l : List SideEntry, (l.map SideEntry.side).Nodup →
      List.Sorted sideLT (List.insertionSort sideLE l) := by
    intro l hl
    have hs : List.Sorted sideLE (List.insertionSort sideLE l) :=
      List.sorted_insertionSort sideLE l
    have hndl : ((List.insertionSort sideLE l).map SideEntry.side).Nodup :=
      (((List.perm_insertionSort sideLE l).map SideEntry.side).nodup_iff).mpr hl
    have hne : (List.insertionSort sideLE l).Pairwise (fun a b => a.side ≠ b.side) :=
      List.pairwise_map.mp hndl
    exact (hs.and hne).imp (fun h => lt_of_le_of_ne h.1 h.2)
  exact List.eq_of_perm_of_sorted hperm (key l₁ hnd) (key l₂ hnd₂)

/-- Claim C9: the canonical group representation (and hence the group hash)
is unchanged by reordering the side-price entries (given distinct side names)
or by adding/removing derived fields beyond `side`, `american`, `decimal`;
and two groups have equal representations only if the
(event_id, market_key, bookmaker, point) quadruple coincides and the
canonical `(side, american, decimal)` entries coincide as multisets — so
changing any side's `american` or `decimal`, the `point`, or any component of
the quadruple changes the hash. -/
theorem c9_group_hash (e m b : String) (p : Option ℚ) (sp1 sp2 : List RawSidePrice) :
    (sp1.Perm sp2 → (sp1.map RawSidePrice.side).Nodup →
      buildNormalizedGroupRepresentation e m b p sp1 =
        buildNormalizedGroupRepresentation e m b p sp2) ∧
    (sp1.map sideProj = sp2.map sideProj →
      buildNormalizedGroupRepresentation e m b p sp1 =
        buildNormalizedGroupRepresentation e m b p sp2) ∧
    (∀ e' m' b' p',
      buildNormalizedGroupRepresentation e m b p sp1 =
        buildNormalizedGroupRepresentation e' m' b' p' sp2 →
      e = e' ∧ m = m' ∧ b = b' ∧ p = p' ∧
        (sp1.map sideProj).Perm (sp2.map sideProj)) := by
  refine ⟨?_, ?_, ?_⟩
  · intro hp hnd
    have hkey : (sp1.map sideProj).map SideEntry.side = sp1.map RawSidePrice.side := by
      rw [List.map_map]; rfl
    have hsorted : List.insertionSort sideLE (sp1.map sideProj) =
        List.insertionSort sideLE (sp2.map sideProj) := by
      refine sides_sorted_eq_of_perm _ _ (hp.map sideProj) ?_
      rw [hkey]; exact hnd
    simp [buildNormalizedGroupRepresentation, hsorted]
  · intro h
    simp [buildNormalizedGroupRepresentation, h]
  · intro e' m' b' p' h
    simp only [buildNormalizedGroupRepresentation, NormalizedGroup.mk.injEq] at h
    obtain ⟨he, hm, hb, hp, hsides⟩ := h
    refine ⟨he, hm, hb, hp, ?_⟩
    have h₁ := (List.perm_insertionSort sideLE (sp1.map sideProj)).symm
    rw [hsides] at h₁
    exact h₁.trans (List.perm_insertionSort sideLE _)

/-- Witness for `c9_group_hash`: swapping two side entries and dropping a
derived `fair_prob` field leaves the canonical representation unchanged. -/
theorem c9_group_hash_witness :
    buildNormalizedGroupRepresentation "ev1" "h2h" "pinnacle" none
      [⟨"HOME", some 100, some 2, [("fair_prob", "0.52")]⟩,
       ⟨"AWAY", some (-110), some 3, [("captured_at", "t0")]⟩] =
    buildNormalizedGroupRepresentation "ev1" "h2h" "pinnacle" none
      [⟨"AWAY", some (-110), some 3, []⟩,
       ⟨"HOME", some 100, some 2, []⟩] := by
  have h1 := (c9_group_hash "ev1" "h2h" "pinnacle" none
    [⟨"HOME", some 100, some 2, [("fair_prob", "0.52")]⟩,
     ⟨"AWAY", some (-110), some 3, [("captured_at", "t0")]⟩]
    [⟨"AWAY", some (-110), some 3, [("captured_at", "t0")]⟩,
     ⟨"HOME", some 100, some 2, [("fair_prob", "0.52")]⟩]).1
    (List.Perm.swap _ _ _) (by decide)
  have h2 := (c9_group_hash "ev1" "h2h" "pinnacle" none
    [⟨"AWAY", some (-110), some 3, [("captured_at", "t0")]⟩,
     ⟨"HOME", some 100, some 2, [("fair_prob", "0.52")]⟩]
    [⟨"AWAY", some (-110), some 3, []⟩,
     ⟨"HOME", some 100, some 2, []⟩]).2.1 rfl
  exact h1.trans h2

/-! ## Claim C2 -/

/-- Claim C2 is refuted by the code as written: `Settings` in `app/config.py`
defines none of the adaptive-override attributes, so once a `PickFeatures`
value passes the `min_books` gate, the `sharp_book_min` gate and the
non-negative time-to-start check, `score_pick` reads
`settings.min_minutes_to_start_relaxed_min_books` and raises
`AttributeError` instead of falling back to the base settings.  The code
contradicts its own tests (`test_config.py` asserts
`settings.ncaab_default_max_picks == 8` and
`settings.max_price_dispersion_sharp_ev == 0.24`; the adaptive tests in
`test_pqs.py` exercise exactly this path), so this is recorded as a code
bug; this theorem evaluates the embedded code at the failing inputs. -/
theorem c2_scorePick_attribute_error (s : Settings) (hs : s.adaptiveOverrides = none)
    (f : PickFeatures) (prior : Option ClvSportStat) (sportKey : Option String)
    (h1 : ¬ f.book_count < s.min_books) (h2 : ¬ f.sharp_book_count < s.sharp_book_min)
    (h3 : ¬ f.time_to_start_minutes < 0) :
    scorePick f s prior sportKey =
      .error "AttributeError: min_minutes_to_start_relaxed_min_books" := by
  simp [scorePick, adaptiveMinMinutesToStart,
    Settings.attrMinMinutesToStartRelaxedMinBooks, hs, h1, h2, h3, except_error_bind]

/-- Witness for `c2_scorePick_attribute_error`: the default settings together
with the features of the adaptive-relaxation test cases of `test_pqs.py`
(8 books, 2 sharps, 180 minutes to start). -/
theorem c2_scorePick_attribute_error_witness :
    scorePick ⟨3/100, 1/100, 8, 2, 9/10, 3/100, 2/100, 180, 12⟩ defaultSettings none
      (some "basketball_nba") =
      .error "AttributeError: min_minutes_to_start_relaxed_min_books" :=
  c2_scorePick_attribute_error defaultSettings rfl _ none (some "basketball_nba")
    (by decide) (by decide) (by norm_num)

/-- Witness for `c8_weak_group_row` at `marketClvs = [1/200]`, `minN = 5`. -/
theorem c8_weak_group_row_witness :
    0 < ([1/200] : List ℚ).length ∧ (([1/200] : List ℚ).length : ℤ) < 5 ∧
    ((clvStatRow [1/200] [] 5).mean_market_clv_bps = 0 ∧
     (clvStatRow [1/200] [] 5).median_market_clv_bps = 0 ∧
     (clvStatRow [1/200] [] 5).pct_positive_market_clv = 1/2 ∧
     (clvStatRow [1/200] [] 5).is_weak = 1 ∧
     (clvStatRow [1/200] [] 5).sharpe_like =
       roundR 6 (sharpeLikeR (([1/200] : List ℚ).map bps))) :=
  ⟨by norm_num, by norm_num, c8_weak_group_row [1/200] [] 5 (by norm_num) (by norm_num)⟩

/-! ### The pick generator: Kelly sizing and idempotency -/

theorem except_bind_error {α β : Type} (e : String) (k : α → Except String β) :
    (Except.error e : Except String α).bind k = Except.error e := rfl

theorem keyExistsB_append (st ext2 : List PickRow) (c : Candidate)
    (h : keyExistsB st c = true) : keyExistsB (st ++ ext2) c = true := by
  simp only [keyExistsB, List.any_append, Bool.or_eq_true]
  exact Or.inl h

theorem keyExistsB_mkPick (s : Settings) (st : List PickRow) (c : Candidate)
    (ev kelly : ℚ) : keyExistsB (st ++ [mkPick s c ev kelly]) c = true := by
  simp only [keyExistsB, List.any_append, Bool.or_eq_true]
  refine Or.inr ?_
  simp [pickKeyMatches, mkPick]

theorem processCandidate_ok_spec (scoreE : Candidate → Except String Unit)
    (s : Settings) (st : List PickRow) (sm : PickRunSummary) (c : Candidate)
    (out : List PickRow × PickRunSummary)
    (h : processCandidate scoreE s st sm c = Except.ok out) :
    candGate s c ≠ none ∧
    (∃ ext2, out.1 = st ++ ext2) ∧
    (candReaches s c = true → scoreE c = Except.ok () ∧ keyExistsB out.1 c = true) ∧
    out.2.skipped_existing + out.2.new_rows =
      sm.skipped_existing + sm.new_rows +
        (if candReaches s c = true then 1 else 0) ∧
    out.2.candidates = sm.candidates + 1 ∧
    out.2.total_views = sm.total_views ∧
    out.2.skipped_insufficient_books = sm.skipped_insufficient_books := by
  unfold processCandidate at h
  cases hev : evPercent c.probability c.best_decimal with
  | error e => rw [hev, except_bind_error] at h; exact Except.noConfusion h
  | ok ev =>
    rw [hev, except_bind_ok] at h
    by_cases hlt : ev < s.pick_min_ev
    · rw [if_pos hlt] at h
      have hout : out = (st, { sm with candidates := sm.candidates + 1,
                                       skipped_low_ev := sm.skipped_low_ev + 1 }) :=
        (Except.ok.inj h).symm
      have hreach : candReaches s c = false := by
        simp [candReaches, candGate, hev, hlt]
      subst hout
      refine ⟨by simp [candGate, hev, hlt], ⟨[], by simp⟩, ?_, ?_, rfl, rfl, rfl⟩
      · intro hr; rw [hreach] at hr; exact absurd hr (by simp)
      · rw [hreach]; simp
    · rw [if_neg hlt] at h
      cases hkf : kellyFraction c.probability c.best_decimal s.kelly_multiplier
          s.kelly_max_cap with
      | error e => rw [hkf, except_bind_error] at h; exact Except.noConfusion h
      | ok kf =>
        rw [hkf, except_bind_ok] at h
        by_cases hk : min s.kelly_cap kf ≤ 0
        · rw [if_pos hk] at h
          have hout : out = (st, { sm with candidates := sm.candidates + 1 }) :=
            (Except.ok.inj h).symm
          have hreach : candReaches s c = false := by
            simp [candReaches, candGate, hev, hlt, hkf, hk]
          subst hout
          refine ⟨by simp [candGate, hev, hlt, hkf, hk], ⟨[], by simp⟩, ?_, ?_,
            rfl, rfl, rfl⟩
          · intro hr; rw [hreach] at hr; exact absurd hr (by simp)
          · rw [hreach]; simp
        · rw [if_neg hk] at h
          have hreach : candReaches s c = true := by
            simp [candReaches, candGate, hev, hlt, hkf, hk]
          have hgate : candGate s c ≠ none := by
            simp [candGate, hev, hlt, hkf, hk]
          by_cases hex : keyExistsB st c = true
          · rw [if_pos hex] at h
            cases hsc : scoreE c with
            | error e => rw [hsc, except_bind_error] at h; exact Except.noConfusion h
            | ok u =>
              cases u
              rw [hsc, except_bind_ok] at h
              have hout : out = (st,
                  { sm with candidates := sm.candidates + 1,
                            skipped_existing := sm.skipped_existing + 1 }) :=
                (Except.ok.inj h).symm
              subst hout
              refine ⟨hgate, ⟨[], by simp⟩, fun _ => ⟨rfl, hex⟩, ?_, rfl, rfl, rfl⟩
              rw [hreach]
              simp
              omega
          · have hexn : ¬ (keyExistsB st c = true) := hex
            rw [if_neg hexn] at h
            cases hsc : scoreE c with
            | error e => rw [hsc, except_bind_error] at h; exact Except.noConfusion h
            | ok u =>
              cases u
              rw [hsc, except_bind_ok] at h
              have hout : out = (st ++ [mkPick s c ev (min s.kelly_cap kf)],
                  { sm with candidates := sm.candidates + 1,
                            new_rows := sm.new_rows + 1 }) :=
                (Except.ok.inj h).symm
              subst hout
              refine ⟨hgate, ⟨[mkPick s c ev (min s.kelly_cap kf)], rfl⟩,
                fun _ => ⟨rfl, keyExistsB_mkPick s st c ev (min s.kelly_cap kf)⟩,
                ?_, rfl, rfl, rfl⟩
              rw [hreach]
              simp
              omega

theorem runCandidates_post (scoreE : Candidate → Except String Unit) (s : Settings)
    (cs : List Candidate) :
    ∀ st sm st2 sm2,
      runCandidates scoreE s cs st sm = Except.ok (st2, sm2) →
      (∃ ext2, st2 = st ++ ext2) ∧
      (∀ c ∈ cs, candGate s c ≠ none ∧
        (candReaches s c = true → scoreE c = Except.ok () ∧
          keyExistsB st2 c = true)) ∧
      sm2.skipped_existing + sm2.new_rows =
        sm.skipped_existing + sm.new_rows + cs.countP (candReaches s) ∧
      sm2.candidates = sm.candidates + cs.length ∧
      sm2.total_views = sm.total_views ∧
      sm2.skipped_insufficient_books = sm.skipped_insufficient_books := by
  induction cs with
  | nil =>
    intro st sm st2 sm2 h
    unfold runCandidates at h
    have hp := Except.ok.inj h
    injection hp with ha hb
    subst ha
    subst hb
    refine ⟨⟨[], by simp⟩, by simp, by simp, by simp, rfl, rfl⟩
  | cons c cs ih =>
    intro st sm st2 sm2 h
    unfold runCandidates at h
    cases hpc : processCandidate scoreE s st sm c with
    | error e => rw [hpc, except_bind_error] at h; exact Except.noConfusion h
    | ok out =>
      rw [hpc, except_bind_ok] at h
      obtain ⟨hgate, ⟨ext1, hext1⟩, hsck, hcount, hcand, htv, hins⟩ :=
        processCandidate_ok_spec scoreE s st sm c out hpc
      obtain ⟨⟨ext2, hext2⟩, hall, hcount2, hcand2, htv2, hins2⟩ :=
        ih out.1 out.2 st2 sm2 h
      refine ⟨⟨ext1 ++ ext2, by rw [hext2, hext1, List.append_assoc]⟩,
        ?_, ?_, ?_, ?_, ?_⟩
      · intro c2 hc2
        rcases List.mem_cons.mp hc2 with rfl | hmem
        · refine ⟨hgate, fun hr => ⟨(hsck hr).1, ?_⟩⟩
          rw [hext2]
          exact keyExistsB_append _ _ _ (hsck hr).2
        · exact hall c2 hmem
      · rw [List.countP_cons]
        by_cases hr : candReaches s c = true
        · rw [if_pos hr] at hcount ⊢
          omega
        · rw [if_neg hr] at hcount ⊢
          omega
      · rw [List.length_cons]
        omega
      · rw [htv2, htv]
      · rw [hins2, hins]

theorem processCandidate_stable (scoreE : Candidate → Except String Unit)
    (s : Settings) (st : List PickRow) (sm : PickRunSummary) (c : Candidate)
    (hg : candGate s c ≠ none)
    (hr : candReaches s c = true →
      scoreE c = Except.ok () ∧ keyExistsB st c = true) :
    ∃ sm1, processCandidate scoreE s st sm c = Except.ok (st, sm1) ∧
      sm1.skipped_existing =
        sm.skipped_existing + (if candReaches s c = true then 1 else 0) ∧
      sm1.new_rows = sm.new_rows ∧
      sm1.candidates = sm.candidates + 1 ∧
      sm1.total_views = sm.total_views ∧
      sm1.skipped_insufficient_books = sm.skipped_insufficient_books := by
  unfold processCandidate
  cases hev : evPercent c.probability c.best_decimal with
  | error e =>
    exact absurd (by simp [candGate, hev] : candGate s c = none) hg
  | ok ev =>
    rw [except_bind_ok]
    by_cases hlt : ev < s.pick_min_ev
    · rw [if_pos hlt]
      have hreach : candReaches s c = false := by
        simp [candReaches, candGate, hev, hlt]
      exact ⟨_, rfl, by rw [hreach]; simp, rfl, rfl, rfl, rfl⟩
    · rw [if_neg hlt]
      cases hkf : kellyFraction c.probability c.best_decimal s.kelly_multiplier
          s.kelly_max_cap with
      | error e =>
        exact absurd (by simp [candGate, hev, hlt, hkf] : candGate s c = none) hg
      | ok kf =>
        rw [except_bind_ok]
        by_cases hkle : min s.kelly_cap kf ≤ 0
        · rw [if_pos hkle]
          have hreach : candReaches s c = false := by
            simp [candReaches, candGate, hev, hlt, hkf, hkle]
          exact ⟨_, rfl, by rw [hreach]; simp, rfl, rfl, rfl, rfl⟩
        · rw [if_neg hkle]
          have hreach : candReaches s c = true := by
            simp [candReaches, candGate, hev, hlt, hkf, hkle]
          obtain ⟨hsc, hex⟩ := hr hreach
          rw [if_pos hex, hsc, except_bind_ok]
          exact ⟨_, rfl, by rw [hreach]; simp, rfl, rfl, rfl, rfl⟩

theorem runCandidates_stable (scoreE : Candidate → Except String Unit)
    (s : Settings) (cs : List Candidate) :
    ∀ st sm,
      (∀ c ∈ cs, candGate s c ≠ none ∧
        (candReaches s c = true → scoreE c = Except.ok () ∧
          keyExistsB st c = true)) →
      ∃ sm2, runCandidates scoreE s cs st sm = Except.ok (st, sm2) ∧
        sm2.skipped_existing = sm.skipped_existing + cs.countP (candReaches s) ∧
        sm2.new_rows = sm.new_rows ∧
        sm2.candidates = sm.candidates + cs.length ∧
        sm2.total_views = sm.total_views ∧
        sm2.skipped_insufficient_books = sm.skipped_insufficient_books := by
  induction cs with
  | nil =>
    intro st sm _
    exact ⟨sm, rfl, by simp, rfl, by simp, rfl, rfl⟩
  | cons c cs ih =>
    intro st sm hall
    obtain ⟨hg, hr⟩ := hall c (List.mem_cons_self c cs)
    obtain ⟨sm1, hpc, hse1, hnr1, hcd1, htv1, hin1⟩ :=
      processCandidate_stable scoreE s st sm c hg hr
    obtain ⟨sm2, hrun, hse2, hnr2, hcd2, htv2, hin2⟩ :=
      ih st sm1 (fun c2 hc2 => hall c2 (List.mem_cons_of_mem c hc2))
    refine ⟨sm2, ?_, ?_, ?_, ?_, ?_, ?_⟩
    · unfold runCandidates
      rw [hpc, except_bind_ok]
      exact hrun
    · rw [hse2, hse1, List.countP_cons]
      by_cases hb : candReaches s c = true
      · rw [if_pos hb]
        omega
      · rw [if_neg hb]
        omega
    · rw [hnr2, hnr1]
    · rw [hcd2, hcd1, List.length_cons]
      omega
    · rw [htv2, htv1]
    · rw [hin2, hin1]

theorem runCandidates_idem (scoreE : Candidate → Except String Unit)
    (s : Settings) (cs : List Candidate) (st0 st1 : List PickRow)
    (sm1 sum0 : PickRunSummary)
    (hs0 : sum0.skipped_existing = 0) (hn0 : sum0.new_rows = 0)
    (h1 : runCandidates scoreE s cs st0 sum0 = Except.ok (st1, sm1)) :
    ∃ sm2, runCandidates scoreE s cs st1 sum0 = Except.ok (st1, sm2) ∧
      sm2.new_rows = 0 ∧
      sm2.skipped_existing = sm1.skipped_existing + sm1.new_rows ∧
      sm2.candidates = sm1.candidates ∧
      sm2.total_views = sm1.total_views ∧
      sm2.skipped_insufficient_books = sm1.skipped_insufficient_books := by
  obtain ⟨⟨ext2, hext⟩, hall, hcount, hcand, htv, hins⟩ :=
    runCandidates_post scoreE s cs st0 sum0 st1 sm1 h1
  obtain ⟨sm2, hrun, hse, hnr, hcd, htv2, hin2⟩ :=
    runCandidates_stable scoreE s cs st1 sum0 hall
  exact ⟨sm2, hrun, by omega, by omega, by omega,
    htv2.trans htv.symm, hin2.trans hins.symm⟩

/-- **C5**: for every pick candidate with consensus probability p ∈ [0, 1],
best decimal price d > 1 and non-negative `kelly_multiplier`/`kelly_max_cap`,
`kelly_fraction(p, d, mult, cap)` returns the spec's closed form — 0 when
f* = (b·p − (1−p))/b ≤ 0 with b = d − 1, and min(cap, mult·f*) otherwise —
the generator takes kelly = min(kelly_cap, that value), a candidate with
kelly ≤ 0 is dropped (no row and no skip counter), and an inserted Pick
stores stake = bankroll_paper · kelly and kelly_fraction = kelly, each
rounded at its fixed persistence scale (1e-4 and 1e-8). -/
theorem c5_kelly_and_stake (scoreE : Candidate → Except String Unit)
    (s : Settings) (st : List PickRow) (sm : PickRunSummary) (c : Candidate)
    (hp0 : 0 ≤ c.probability) (hp1 : c.probability ≤ 1)
    (hd : 1 < c.best_decimal) (hm : 0 ≤ s.kelly_multiplier)
    (hcap : 0 ≤ s.kelly_max_cap) :
    kellyFraction c.probability c.best_decimal s.kelly_multiplier s.kelly_max_cap =
      Except.ok (specKellyFraction c.probability c.best_decimal s.kelly_multiplier
        s.kelly_max_cap) ∧
    (¬ c.probability * c.best_decimal - 1 < s.pick_min_ev →
      min s.kelly_cap (specKellyFraction c.probability c.best_decimal
        s.kelly_multiplier s.kelly_max_cap) ≤ 0 →
      processCandidate scoreE s st sm c =
        Except.ok (st, { sm with candidates := sm.candidates + 1 })) ∧
    (¬ c.probability * c.best_decimal - 1 < s.pick_min_ev →
      0 < min s.kelly_cap (specKellyFraction c.probability c.best_decimal
        s.kelly_multiplier s.kelly_max_cap) →
      keyExistsB st c = false → scoreE c = Except.ok () →
      processCandidate scoreE s st sm c =
        Except.ok (st ++ [mkPick s c (c.probability * c.best_decimal - 1)
            (min s.kelly_cap (specKellyFraction c.probability c.best_decimal
              s.kelly_multiplier s.kelly_max_cap))],
          { sm with candidates := sm.candidates + 1,
                    new_rows := sm.new_rows + 1 }) ∧
      (mkPick s c (c.probability * c.best_decimal - 1)
          (min s.kelly_cap (specKellyFraction c.probability c.best_decimal
            s.kelly_multiplier s.kelly_max_cap))).stake =
        quantize 4 (s.bankroll_paper *
          min s.kelly_cap (specKellyFraction c.probability c.best_decimal
            s.kelly_multiplier s.kelly_max_cap)) ∧
      (mkPick s c (c.probability * c.best_decimal - 1)
          (min s.kelly_cap (specKellyFraction c.probability c.best_decimal
            s.kelly_multiplier s.kelly_max_cap))).kelly_fraction =
        quantize 8 (min s.kelly_cap (specKellyFraction c.probability
          c.best_decimal s.kelly_multiplier s.kelly_max_cap))) := by
  have hvp : ¬ ¬ validProb c.probability := fun hn => hn ⟨hp0, hp1⟩
  have hdle : ¬ c.best_decimal ≤ 1 := not_le.mpr hd
  have hev : evPercent c.probability c.best_decimal =
      Except.ok (c.probability * c.best_decimal - 1) := by
    unfold evPercent
    rw [if_neg hvp, if_neg hdle]
  have hkf : kellyFraction c.probability c.best_decimal s.kelly_multiplier
      s.kelly_max_cap =
      Except.ok (specKellyFraction c.probability c.best_decimal
        s.kelly_multiplier s.kelly_max_cap) := by
    unfold kellyFraction specKellyFraction
    rw [if_neg hvp, if_neg hdle, if_neg (not_lt.mpr hm), if_neg (not_lt.mpr hcap)]
    dsimp only
    split_ifs with h
    · rfl
    · rfl
  refine ⟨hkf, ?_, ?_⟩
  · intro hevge hkle
    unfold processCandidate
    rw [hev, except_bind_ok, if_neg hevge, hkf, except_bind_ok, if_pos hkle]
  · intro hevge hkpos hexn hsc
    have hne : ¬ (keyExistsB st c = true) := by
      rw [hexn]
      exact Bool.false_ne_true
    unfold processCandidate
    rw [hev, except_bind_ok, if_neg hevge, hkf, except_bind_ok,
        if_neg (not_le.mpr hkpos), if_neg hne, hsc, except_bind_ok]
    exact ⟨rfl, rfl, rfl⟩

/-- **C5 witness**: the spec's S3 prices (p = 0.53 on decimal 2.10) under
the default settings. -/
theorem c5_kelly_and_stake_witness :
    ((0 : ℚ) ≤ c5WitnessCandidate.probability ∧
      c5WitnessCandidate.probability ≤ 1 ∧
      (1 : ℚ) < c5WitnessCandidate.best_decimal ∧
      (0 : ℚ) ≤ defaultSettings.kelly_multiplier ∧
      (0 : ℚ) ≤ defaultSettings.kelly_max_cap) ∧
    (kellyFraction c5WitnessCandidate.probability c5WitnessCandidate.best_decimal
        defaultSettings.kelly_multiplier defaultSettings.kelly_max_cap =
      Except.ok (specKellyFraction c5WitnessCandidate.probability
        c5WitnessCandidate.best_decimal defaultSettings.kelly_multiplier
        defaultSettings.kelly_max_cap) ∧
    (¬ c5WitnessCandidate.probability * c5WitnessCandidate.best_decimal - 1 <
        defaultSettings.pick_min_ev →
      min defaultSettings.kelly_cap (specKellyFraction
        c5WitnessCandidate.probability c5WitnessCandidate.best_decimal
        defaultSettings.kelly_multiplier defaultSettings.kelly_max_cap) ≤ 0 →
      processCandidate okScore defaultSettings [] emptySummary c5WitnessCandidate =
        Except.ok ([], { emptySummary with
          candidates := emptySummary.candidates + 1 })) ∧
    (¬ c5WitnessCandidate.probability * c5WitnessCandidate.best_decimal - 1 <
        defaultSettings.pick_min_ev →
      0 < min defaultSettings.kelly_cap (specKellyFraction
        c5WitnessCandidate.probability c5WitnessCandidate.best_decimal
        defaultSettings.kelly_multiplier defaultSettings.kelly_max_cap) →
      keyExistsB [] c5WitnessCandidate = false →
      okScore c5WitnessCandidate = Except.ok () →
      processCandidate okScore defaultSettings [] emptySummary c5WitnessCandidate =
        Except.ok ([] ++ [mkPick defaultSettings c5WitnessCandidate
            (c5WitnessCandidate.probability * c5WitnessCandidate.best_decimal - 1)
            (min defaultSettings.kelly_cap (specKellyFraction
              c5WitnessCandidate.probability c5WitnessCandidate.best_decimal
              defaultSettings.kelly_multiplier defaultSettings.kelly_max_cap))],
          { emptySummary with candidates := emptySummary.candidates + 1,
                              new_rows := emptySummary.new_rows + 1 }) ∧
      (mkPick defaultSettings c5WitnessCandidate
          (c5WitnessCandidate.probability * c5WitnessCandidate.best_decimal - 1)
          (min defaultSettings.kelly_cap (specKellyFraction
            c5WitnessCandidate.probability c5WitnessCandidate.best_decimal
            defaultSettings.kelly_multiplier defaultSettings.kelly_max_cap))).stake =
        quantize 4 (defaultSettings.bankroll_paper *
          min defaultSettings.kelly_cap (specKellyFraction
            c5WitnessCandidate.probability c5WitnessCandidate.best_decimal
            defaultSettings.kelly_multiplier defaultSettings.kelly_max_cap)) ∧
      (mkPick defaultSettings c5WitnessCandidate
          (c5WitnessCandidate.probability * c5WitnessCandidate.best_decimal - 1)
          (min defaultSettings.kelly_cap (specKellyFraction
            c5WitnessCandidate.probability c5WitnessCandidate.best_decimal
            defaultSettings.kelly_multiplier
            defaultSettings.kelly_max_cap))).kelly_fraction =
        quantize 8 (min defaultSettings.kelly_cap (specKellyFraction
          c5WitnessCandidate.probability c5WitnessCandidate.best_decimal
          defaultSettings.kelly_multiplier defaultSettings.kelly_max_cap)))) :=
  ⟨⟨by norm_num [c5WitnessCandidate], by norm_num [c5WitnessCandidate],
    by norm_num [c5WitnessCandidate], by norm_num [defaultSettings],
    by norm_num [defaultSettings]⟩,
   c5_kelly_and_stake okScore defaultSettings [] emptySummary c5WitnessCandidate
     (by norm_num [c5WitnessCandidate]) (by norm_num [c5WitnessCandidate])
     (by norm_num [c5WitnessCandidate]) (by norm_num [defaultSettings])
     (by norm_num [defaultSettings])⟩

/-- **C6**: the pick generator is idempotent.  If a run over the latest
group rows completes with Pick table st1 and summary sm1, a second run over
the same rows starting from st1 completes with the table unchanged — zero
new Pick rows — and counts every candidate that reached the existence test
in skipped_existing, so its skipped_existing equals the first run's
skipped_existing plus the first run's insert count, while the candidate,
view and insufficient-books counters repeat exactly.  This holds because the
existence test on the Pick uniqueness key (game, market_key, side,
best_book, captured_at_max, point) precedes every insert, and each inserted
row matches its own candidate's key. -/
theorem c6_pick_generator_idempotent (scoreE : Candidate → Except String Unit)
    (s : Settings) (gameIdOf : String → Option ℤ) (rows : List Row)
    (st0 st1 : List PickRow) (sm1 : PickRunSummary)
    (h1 : generateConsensusPicks scoreE s gameIdOf rows st0 =
      Except.ok (st1, sm1)) :
    ∃ sm2, generateConsensusPicks scoreE s gameIdOf rows st1 =
        Except.ok (st1, sm2) ∧
      sm2.new_rows = 0 ∧
      sm2.skipped_existing = sm1.skipped_existing + sm1.new_rows ∧
      sm2.candidates = sm1.candidates ∧
      sm2.total_views = sm1.total_views ∧
      sm2.skipped_insufficient_books = sm1.skipped_insufficient_books := by
  unfold generateConsensusPicks at h1 ⊢
  cases hbv : buildMarketViews s rows with
  | error e => rw [hbv, except_bind_error] at h1; exact Except.noConfusion h1
  | ok views =>
    rw [hbv] at h1
    rw [except_bind_ok] at h1 ⊢
    cases hres : views.mapM (fun kv => computeConsensusForView s kv.2) with
    | error e => rw [hres, except_bind_error] at h1; exact Except.noConfusion h1
    | ok results =>
      rw [hres] at h1
      rw [except_bind_ok] at h1 ⊢
      exact runCandidates_idem scoreE s _ st0 st1 sm1 _ rfl rfl h1

/-- **C6 witness**: a one-row snapshot set; the first run records one view
with insufficient books and inserts nothing, and the second run repeats the
same summary. -/
theorem c6_pick_generator_idempotent_witness :
    generateConsensusPicks okScore defaultSettings noGame c6WitnessRows [] =
      Except.ok ([], c6WitnessSummary) ∧
    ∃ sm2, generateConsensusPicks okScore defaultSettings noGame c6WitnessRows [] =
        Except.ok ([], sm2) ∧
      sm2.new_rows = 0 ∧
      sm2.skipped_existing =
        c6WitnessSummary.skipped_existing + c6WitnessSummary.new_rows ∧
      sm2.candidates = c6WitnessSummary.candidates ∧
      sm2.total_views = c6WitnessSummary.total_views ∧
      sm2.skipped_insufficient_books =
        c6WitnessSummary.skipped_insufficient_books :=
  ⟨rfl, c6_pick_generator_idempotent okScore defaultSettings noGame c6WitnessRows
    [] [] c6WitnessSummary rfl⟩

/-! ### The CLV engine -/

theorem removeVig_mem (ps out : List ℚ) (h : removeVig ps = Except.ok out) :
    ∀ q ∈ out, 0 ≤ q ∧ q ≤ 1 := by
  unfold removeVig at h
  split_ifs at h with h1 h2 h3
  all_goals try exact Except.noConfusion h
  have hout : out = ps.map (fun p => p / ps.sum) := (Except.ok.inj h).symm
  subst hout
  simp only [List.any_eq_true, Bool.or_eq_true, decide_eq_true_eq] at h2
  push_neg at h2
  have hsum : EPS < ps.sum := not_le.mp h3
  have hpos : (0 : ℚ) < ps.sum := lt_trans EPS_pos hsum
  intro q hq
  obtain ⟨p, hp, rfl⟩ := List.mem_map.mp hq
  refine ⟨div_nonneg (h2 p hp).1 (le_of_lt hpos), ?_⟩
  rw [div_le_one hpos]
  exact List.single_le_sum (fun y hy => (h2 y hy).1) p hp

theorem consensusFairProb_mem (sides : List String) (booksProbs : List (List ℚ))
    (weights : List ℚ) (out : List ℚ)
    (h : consensusFairProb sides booksProbs weights = Except.ok out) :
    ∀ q ∈ out, 0 ≤ q ∧ q ≤ 1 := by
  unfold consensusFairProb at h
  split_ifs at h
  all_goals try exact Except.noConfusion h
  exact removeVig_mem _ out h

theorem clvRequiredSides_ne_nil (sk mk : String) : clvRequiredSides sk mk ≠ [] := by
  unfold clvRequiredSides
  split_ifs <;> simp

theorem completeBooks_nil (required : List String) :
    completeBooks [] required = [] := rfl

/-- **C7**: the CLV engine is best-effort.  When fewer than
consensus_min_books bookmakers have a complete pre-commence closing
timestamp, compute_pick_clv returns False without raising, leaving the pick
unchanged, and compute_clv_for_date counts the pick in skipped_no_close;
when a closing window exists, closing_consensus_prob, market_clv and
clv_computed_at are always written, while closing_book_decimal,
closing_book_implied_prob and book_clv are written exactly when the pick's
best_book quotes a non-null decimal for the pick's side in the closing
window, and remain null otherwise.  Hypotheses: threshold at least one,
validated consensus weights, the snapshot invariant (per-book fair
probabilities in [0, 1] summing to 1), the pick's side among the market's
required sides, a stored consensus_prob in [0, 1], decimal prices at least
1, and a pick whose CLV is not yet computed. -/
theorem c7_clv_best_effort (s : Settings) (g : ClvGame) (pick : ClvPick)
    (snaps : List Row) (now : ℤ)
    (hmin : 1 ≤ s.consensus_min_books)
    (hclv0 : pick.clv_computed_at = none)
    (hsw : EPS < s.sharp_weight) (hstw : EPS < s.standard_weight)
    (hprobs : ∀ b ∈ completeBooks (clvRows g pick snaps)
        (clvRequiredSides g.sport_key pick.market_key),
      (((clvRequiredSides g.sport_key pick.market_key).map
        (fun side => fairProbFor (clvRows g pick snaps) b side)).sum = 1 ∧
       ∀ p ∈ (clvRequiredSides g.sport_key pick.market_key).map
        (fun side => fairProbFor (clvRows g pick snaps) b side), 0 ≤ p ∧ p ≤ 1))
    (hside : pick.side ∈ clvRequiredSides g.sport_key pick.market_key)
    (hpp : 0 ≤ pick.consensus_prob ∧ pick.consensus_prob ≤ 1)
    (hpd : 1 ≤ pick.best_decimal)
    (hdec : ∀ r ∈ clvRows g pick snaps, ∀ d : ℚ, r.decimal = some d → 1 ≤ d) :
    (((completeBooks (clvRows g pick snaps)
        (clvRequiredSides g.sport_key pick.market_key)).length : ℤ) <
        s.consensus_min_books →
      computePickClv s (some g) pick snaps now = Except.ok none ∧
      computeClvForDate s false now [(pick, some g, snaps)] =
        Except.ok ([pick],
          { processed := 1, updated := 0, skipped_no_close := 1,
            skipped_already_computed := 0 })) ∧
    (¬ ((completeBooks (clvRows g pick snaps)
        (clvRequiredSides g.sport_key pick.market_key)).length : ℤ) <
        s.consensus_min_books →
      ∃ p2 cp, computePickClv s (some g) pick snaps now = Except.ok (some p2) ∧
        p2.closing_consensus_prob = some (quantize 8 cp) ∧
        p2.market_clv = some (quantize 8 (cp - pick.consensus_prob)) ∧
        p2.clv_computed_at = some now ∧
        p2.closing_book_decimal =
          (closingBookDecimal (clvRows g pick snaps) pick.best_book
            pick.side).map (quantize 5) ∧
        p2.closing_book_implied_prob =
          (closingBookDecimal (clvRows g pick snaps) pick.best_book
            pick.side).map (fun d => quantize 8 (1 / d)) ∧
        p2.book_clv =
          (closingBookDecimal (clvRows g pick snaps) pick.best_book
            pick.side).map
            (fun d => quantize 8 (1 / d - 1 / pick.best_decimal)) ∧
        computeClvForDate s false now [(pick, some g, snaps)] =
          Except.ok ([p2],
            { processed := 1, updated := 1, skipped_no_close := 0,
              skipped_already_computed := 0 })) := by
  have hcnot : ¬ ((pick.clv_computed_at ≠ none) ∧ (false : Bool) = false) :=
    fun hcon => hcon.1 hclv0
  constructor
  · intro hlow
    have hg : getClosingMarketView s (some g) pick snaps = Except.ok none := by
      simp only [getClosingMarketView]
      by_cases hR : clvRows g pick snaps = []
      · rw [if_pos hR]
      · rw [if_neg hR]
        by_cases hI : clvIncluded g pick snaps = []
        · rw [if_pos hI]
        · rw [if_neg hI]
          rw [if_pos ?_]
          rw [show (clvIncluded g pick snaps).length =
              (completeBooks (clvRows g pick snaps)
                (clvRequiredSides g.sport_key pick.market_key)).length from
            (List.perm_insertionSort _ _).length_eq]
          exact hlow
    have hA1 : computePickClv s (some g) pick snaps now = Except.ok none := by
      unfold computePickClv
      rw [hg, except_bind_ok]
    refine ⟨hA1, ?_⟩
    unfold computeClvForDate
    simp only [clvRun]
    rw [if_neg (show ¬ (pick.clv_computed_at ≠ none ∧ True) from
      fun hcon => hcon.1 hclv0), hA1]
    rfl
  · intro hhigh
    have hlenI : (clvIncluded g pick snaps).length =
        (completeBooks (clvRows g pick snaps)
          (clvRequiredSides g.sport_key pick.market_key)).length :=
      (List.perm_insertionSort _ _).length_eq
    have hCBne : completeBooks (clvRows g pick snaps)
        (clvRequiredSides g.sport_key pick.market_key) ≠ [] := by
      intro hc
      rw [hc] at hhigh
      simp only [List.length_nil, Nat.cast_zero, not_lt] at hhigh
      omega
    have hRne : clvRows g pick snaps ≠ [] := by
      intro hR
      apply hCBne
      rw [hR]
      rfl
    have hIne : clvIncluded g pick snaps ≠ [] := by
      intro hI
      apply hCBne
      rw [hI] at hlenI
      simp only [List.length_nil] at hlenI
      exact List.eq_nil_of_length_eq_zero hlenI.symm
    have hImem : ∀ b, b ∈ clvIncluded g pick snaps ↔
        b ∈ completeBooks (clvRows g pick snaps)
          (clvRequiredSides g.sport_key pick.market_key) :=
      fun b => (List.perm_insertionSort _ _).mem_iff
    obtain ⟨out, hok, hsum, hlenout⟩ :=
      consensusFairProb_ok (clvRequiredSides g.sport_key pick.market_key)
        (clvBooksProbs g pick snaps)
        (consensusWeights s (clvIncluded g pick snaps))
        (by
          intro hmapnil
          exact hIne (List.map_eq_nil_iff.mp hmapnil))
        (by simp [clvBooksProbs, consensusWeights])
        (by
          intro w hw
          obtain ⟨b, hb, rfl⟩ := List.mem_map.mp hw
          split_ifs
          · exact le_of_lt (lt_trans EPS_pos hsw)
          · exact le_of_lt (lt_trans EPS_pos hstw))
        (by
          obtain ⟨b, hb⟩ := List.exists_mem_of_ne_nil _ hIne
          refine ⟨_, List.mem_map_of_mem _ hb, ?_⟩
          split_ifs
          · exact hsw
          · exact hstw)
        (clvRequiredSides_ne_nil _ _)
        (by
          intro bp hbp
          obtain ⟨b, hb, rfl⟩ := List.mem_map.mp hbp
          rw [List.length_map])
        (by
          intro bp hbpm
          obtain ⟨b, hb, rfl⟩ := List.mem_map.mp hbpm
          exact (hprobs b ((hImem b).mp hb)).2)
        (by
          intro bp hbpm
          obtain ⟨b, hb, rfl⟩ := List.mem_map.mp hbpm
          exact (hprobs b ((hImem b).mp hb)).1)
    have hbounds : ∀ q ∈ out, 0 ≤ q ∧ q ≤ 1 :=
      consensusFairProb_mem _ _ _ _ hok
    have hmaxne : ((clvRows g pick snaps).map Row.captured_at).max? ≠ none := by
      rw [Ne, List.max?_eq_none_iff]
      intro hmap
      exact hRne (List.map_eq_nil_iff.mp hmap)
    obtain ⟨t, ht⟩ := Option.ne_none_iff_exists'.mp hmaxne
    have hcond : ¬ (((clvIncluded g pick snaps).length : ℤ) <
        s.consensus_min_books) := by
      rw [show ((clvIncluded g pick snaps).length : ℤ) =
          ((completeBooks (clvRows g pick snaps)
            (clvRequiredSides g.sport_key pick.market_key)).length : ℤ) from
        congrArg _ hlenI]
      exact hhigh
    have hview : getClosingMarketView s (some g) pick snaps =
        Except.ok (some
          { consensus_probs :=
              (clvRequiredSides g.sport_key pick.market_key).zip out
            best_decimal_by_side :=
              (clvRequiredSides g.sport_key pick.market_key).filterMap
                (fun side => (closingBestForSide (clvRows g pick snaps)
                  (completeBooks (clvRows g pick snaps)
                    (clvRequiredSides g.sport_key pick.market_key)) side).map
                  (fun d => (side, d)))
            rows := clvRows g pick snaps
            captured_at_used := t }) := by
      simp only [getClosingMarketView]
      rw [if_neg hRne, if_neg hIne, if_neg hcond, hok, except_bind_ok, ht]
    obtain ⟨i, hi, hieq⟩ := List.mem_iff_getElem.mp hside
    have hizip : i < ((clvRequiredSides g.sport_key pick.market_key).zip
        out).length := by
      rw [List.length_zip, hlenout, min_self]
      exact hi
    have hfind : (((clvRequiredSides g.sport_key pick.market_key).zip
        out).find? (fun sp => decide (sp.1 = pick.side))).isSome := by
      refine List.find?_isSome.mpr ⟨((clvRequiredSides g.sport_key
        pick.market_key).zip out)[i], List.getElem_mem hizip, ?_⟩
      rw [List.getElem_zip]
      simpa using hieq
    obtain ⟨a, hfeq⟩ := Option.isSome_iff_exists.mp hfind
    have hcpmem : a.2 ∈ out := (List.of_mem_zip
      (List.mem_of_find?_eq_some hfeq)).2
    have hlook : lookupSide ((clvRequiredSides g.sport_key
        pick.market_key).zip out) pick.side = some a.2 := by
      rw [lookupSide, hfeq]
      rfl
    have hcpv : 0 ≤ a.2 ∧ a.2 ≤ 1 := hbounds a.2 hcpmem
    have hbd0 : ¬ (pick.best_decimal = 0) := by
      intro hz
      rw [hz] at hpd
      norm_num at hpd
    have hbdpos : (0 : ℚ) < pick.best_decimal := lt_of_lt_of_le one_pos hpd
    have hmkt : marketClvFn a.2 pick.consensus_prob =
        Except.ok (a.2 - pick.consensus_prob) := by
      unfold marketClvFn
      rw [if_neg (fun hn => hn hcpv), if_neg (fun hn => hn hpp)]
    have hrun : ∀ p2, computePickClv s (some g) pick snaps now =
        Except.ok (some p2) →
        computeClvForDate s false now [(pick, some g, snaps)] =
          Except.ok ([p2],
            { processed := 1, updated := 1, skipped_no_close := 0,
              skipped_already_computed := 0 }) := by
      intro p2 hp2
      unfold computeClvForDate
      simp only [clvRun]
      rw [if_neg (show ¬ (pick.clv_computed_at ≠ none ∧ True) from
        fun hcon => hcon.1 hclv0), hp2]
      rfl
    cases hcbd : closingBookDecimal (clvRows g pick snaps) pick.best_book
        pick.side with
    | none =>
      have hp2 : computePickClv s (some g) pick snaps now =
          Except.ok (some { pick with
            closing_consensus_prob := some (quantize 8 a.2)
            market_clv := some (quantize 8 (a.2 - pick.consensus_prob))
            closing_book_decimal := none
            closing_book_implied_prob := none
            book_clv := none
            clv_computed_at := some now }) := by
        unfold computePickClv
        rw [hview, except_bind_ok]
        dsimp only
        rw [hlook]
        dsimp only
        rw [if_neg hbd0, hcbd]
        dsimp only
        rw [except_bind_ok, hmkt, except_bind_ok]
        rfl
      refine ⟨_, a.2, hp2, rfl, rfl, rfl, ?_, ?_, ?_, hrun _ hp2⟩
      · simp [hcbd]
      · simp [hcbd]
      · simp [hcbd]
    | some d =>
      obtain ⟨r, hrR, hfr⟩ := List.exists_of_findSome?_eq_some hcbd
      have hd1 : 1 ≤ d := by
        by_cases hcond2 : r.bookmaker = pick.best_book ∧ r.side = pick.side
        · rw [if_pos hcond2] at hfr
          exact hdec r hrR d hfr
        · rw [if_neg hcond2] at hfr
          exact absurd hfr (by simp)
      have hdpos : (0 : ℚ) < d := lt_of_lt_of_le one_pos hd1
      have hd0 : ¬ (d = 0) := ne_of_gt hdpos
      have hbook : bookClvFn (1 / d) (1 / pick.best_decimal) =
          Except.ok (1 / d - 1 / pick.best_decimal) := by
        unfold bookClvFn
        rw [if_neg (fun hn => hn ⟨by positivity, (div_le_one hdpos).mpr hd1⟩),
            if_neg (fun hn => hn ⟨by positivity,
              (div_le_one hbdpos).mpr hpd⟩)]
      have hp2 : computePickClv s (some g) pick snaps now =
          Except.ok (some { pick with
            closing_consensus_prob := some (quantize 8 a.2)
            market_clv := some (quantize 8 (a.2 - pick.consensus_prob))
            closing_book_decimal := some (quantize 5 d)
            closing_book_implied_prob := some (quantize 8 (1 / d))
            book_clv := some (quantize 8 (1 / d - 1 / pick.best_decimal))
            clv_computed_at := some now }) := by
        unfold computePickClv
        rw [hview, except_bind_ok]
        dsimp only
        rw [hlook]
        dsimp only
        rw [if_neg hbd0, hcbd]
        dsimp only
        rw [if_neg hd0, hbook, except_bind_ok, except_bind_ok, hmkt,
            except_bind_ok]
        rfl
      refine ⟨_, a.2, hp2, rfl, rfl, rfl, ?_, ?_, ?_, hrun _ hp2⟩
      · simp [hcbd]
      · simp [hcbd]
      · simp [hcbd]

/-- **C7 witness**: a pick whose market has a single one-sided pre-commence
snapshot, so no bookmaker closes complete and the pick is counted
skipped_no_close with its fields untouched. -/
theorem c7_clv_best_effort_witness :
    ((1 : ℤ) ≤ defaultSettings.consensus_min_books ∧
      c7Pick.clv_computed_at = none ∧
      EPS < defaultSettings.sharp_weight ∧
      EPS < defaultSettings.standard_weight ∧
      c7Pick.side ∈ clvRequiredSides c7Game.sport_key c7Pick.market_key ∧
      (0 ≤ c7Pick.consensus_prob ∧ c7Pick.consensus_prob ≤ 1) ∧
      (1 : ℚ) ≤ c7Pick.best_decimal) ∧
    (((completeBooks (clvRows c7Game c7Pick c7Snaps)
        (clvRequiredSides c7Game.sport_key c7Pick.market_key)).length : ℤ) <
        defaultSettings.consensus_min_books →
      computePickClv defaultSettings (some c7Game) c7Pick c7Snaps 7 =
        Except.ok none ∧
      computeClvForDate defaultSettings false 7 [(c7Pick, some c7Game, c7Snaps)] =
        Except.ok ([c7Pick],
          { processed := 1, updated := 0, skipped_no_close := 1,
            skipped_already_computed := 0 })) :=
  ⟨⟨by norm_num [defaultSettings], rfl, by norm_num [defaultSettings, EPS],
    by norm_num [defaultSettings, EPS], by decide, by norm_num [c7Pick],
    by norm_num [c7Pick]⟩,
   (c7_clv_best_effort defaultSettings c7Game c7Pick c7Snaps 7
     (by norm_num [defaultSettings]) rfl
     (by norm_num [defaultSettings, EPS]) (by norm_num [defaultSettings, EPS])
     (by
       intro b hb
       rw [show completeBooks (clvRows c7Game c7Pick c7Snaps)
           (clvRequiredSides c7Game.sport_key c7Pick.market_key) = [] from rfl]
         at hb
       exact absurd hb (List.not_mem_nil b))
     (by decide) (by norm_num [c7Pick]) (by norm_num [c7Pick])
     (by
       intro r hr d hd
       rw [show clvRows c7Game c7Pick c7Snaps = [] from rfl] at hr
       exact absurd hr (List.not_mem_nil r))).1⟩

end PrintCity
